import Mathlib

/-!
# Sudoku backtracking solver (`SUDOKOO.cpp`): a shallow embedding

The class `SudokuSolver` owns one mutable `vector<vector<int>> grid`.  Every
member function is embedded as a function that takes the grid and returns the
result together with the grid it leaves behind (where the member mutates it).

* `int` cells are `Int` (only compared, never computed with);
* `row`, `col` loop indices are `Nat`;
* `for (x = 0; x < SIZE; x++) if (..) return ..;` is a `List.range SIZE` scan;
* the recursion of `solveSudoku` is structural on a fuel argument that counts
  stack frames; `solveSudoku` itself supplies one frame per empty cell plus one;
* the members are embedded a second time with bounds-checked reads and writes
  (names ending in `At`), to state that no access leaves the grid.
-/

namespace SudokuSolver


/-- The constant `SIZE`. -/
def SIZE : Nat := 9

/-- The constant `SUBGRID_SIZE`. -/
def SUBGRID_SIZE : Nat := 3

/-- The member `grid`: a vector of rows. -/
abbrev Grid := List (List Int)

/-- Read `grid[row][col]`. -/
def getCell (g : Grid) (row col : Nat) : Int :=
  (g.getD row []).getD col 0

/-- Write `grid[row][col] = v`. -/
def setCell (g : Grid) (row col : Nat) (v : Int) : Grid :=
  g.set row ((g.getD row []).set col v)

/-- The grid built by the constructor: `grid.resize(SIZE, vector<int>(SIZE, 0))`. -/
def emptyGrid : Grid :=
  List.replicate SIZE (List.replicate SIZE 0)

/-- The index pairs visited by `for (row ..) for (col ..)`, in visiting order. -/
def cells : List (Nat × Nat) :=
  (List.range SIZE).flatMap (fun row => (List.range SIZE).map (fun col => (row, col)))

/-- Member `isValidPlacement(row, col, num)`: three scans, each returning
`false` at the first cell equal to `num`. -/
def isValidPlacement (g : Grid) (row col : Nat) (num : Int) : Bool :=
  if (List.range SIZE).any (fun c => getCell g row c == num) then false
  else if (List.range SIZE).any (fun r => getCell g r col == num) then false
  else
    let startRow := row - row % SUBGRID_SIZE
    let startCol := col - col % SUBGRID_SIZE
    if (List.range SUBGRID_SIZE).any (fun r =>
        (List.range SUBGRID_SIZE).any (fun c =>
          getCell g (r + startRow) (c + startCol) == num)) then false
    else true

/-- Member `findEmptyCell(row, col)`: `some (row, col)` stands for the result
`true` with the two reference parameters, `none` for the result `false`. -/
def findEmptyCell (g : Grid) : Option (Nat × Nat) :=
  cells.find? (fun p => getCell g p.1 p.2 == 0)

/-- The loop `for (num = ..; num <= 9; num++)` of `solveSudoku` over the
remaining candidates, `solve` being the recursive call.  The result is `none`
only if a recursive call ran out of stack frames. -/
def tryNums (solve : Grid → Option (Bool × Grid)) (row col : Nat) :
    List Int → Grid → Option (Bool × Grid)
  | [], g => some (false, g)
  | num :: rest, g =>
    if isValidPlacement g row col num then
      match solve (setCell g row col num) with
      | none => none
      | some (true, g1) => some (true, g1)
      | some (false, g1) => tryNums solve row col rest (setCell g1 row col 0)
    else tryNums solve row col rest g

/-- The candidates `1, 2, .., 9` in the order the loop tries them. -/
def nums : List Int := [1, 2, 3, 4, 5, 6, 7, 8, 9]

/-- Member `solveSudoku()` with a bound on the number of nested frames. -/
def solveSudokuFuel : Nat → Grid → Option (Bool × Grid)
  | 0, _ => none
  | fuel + 1, g =>
    match findEmptyCell g with
    | none => some (true, g)
    | some (row, col) => tryNums (solveSudokuFuel fuel) row col nums g

/-- Number of cells holding 0. -/
def countEmpty (g : Grid) : Nat :=
  (cells.filter (fun p => getCell g p.1 p.2 == 0)).length

/-- Member `solveSudoku()`: one frame for each empty cell and one for the
call that finds the grid full. -/
def solveSudoku (g : Grid) : Option (Bool × Grid) :=
  solveSudokuFuel (countEmpty g + 1) g

/-- The loop body of `isValidGrid` over the remaining cells. -/
def isValidGridLoop : List (Nat × Nat) → Grid → Bool × Grid
  | [], g => (true, g)
  | (row, col) :: rest, g =>
    if getCell g row col ≠ 0 then
      let temp := getCell g row col
      let g1 := setCell g row col 0
      if !isValidPlacement g1 row col temp then
        (false, setCell g1 row col temp)
      else isValidGridLoop rest (setCell g1 row col temp)
    else isValidGridLoop rest g

/-- Member `isValidGrid()`: the result and the grid after the call. -/
def isValidGrid (g : Grid) : Bool × Grid :=
  isValidGridLoop cells g

/-- The table of `loadSamplePuzzle()`. -/
def samplePuzzle : Grid :=
  [[5, 3, 0, 0, 7, 0, 0, 0, 0],
   [6, 0, 0, 1, 9, 5, 0, 0, 0],
   [0, 9, 8, 0, 0, 0, 0, 6, 0],
   [8, 0, 0, 0, 6, 0, 0, 0, 3],
   [4, 0, 0, 8, 0, 3, 0, 0, 1],
   [7, 0, 0, 0, 2, 0, 0, 0, 6],
   [0, 6, 0, 0, 0, 0, 2, 8, 0],
   [0, 0, 0, 4, 1, 9, 0, 0, 5],
   [0, 0, 0, 0, 8, 0, 0, 7, 9]]

/-- The known solution of the sample puzzle. -/
def sampleSolution : Grid :=
  [[5, 3, 4, 6, 7, 8, 9, 1, 2],
   [6, 7, 2, 1, 9, 5, 3, 4, 8],
   [1, 9, 8, 3, 4, 2, 5, 6, 7],
   [8, 5, 9, 7, 6, 1, 4, 2, 3],
   [4, 2, 6, 8, 5, 3, 7, 9, 1],
   [7, 1, 3, 9, 2, 4, 8, 5, 6],
   [9, 6, 1, 5, 3, 7, 2, 8, 4],
   [2, 8, 7, 4, 1, 9, 6, 3, 5],
   [3, 4, 5, 2, 8, 6, 1, 7, 9]]

/-! ## Specification vocabulary -/

/-- The grid has `SIZE` rows of `SIZE` cells each. -/
def WF (g : Grid) : Prop :=
  g.length = SIZE ∧ ∀ r ∈ g, r.length = SIZE

/-- Every cell holds a value in 0..9. -/
def InRange (g : Grid) : Prop :=
  ∀ r < SIZE, ∀ c < SIZE, 0 ≤ getCell g r c ∧ getCell g r c ≤ 9

/-- Every cell holds a digit in 1..9. -/
def AllDigits (g : Grid) : Prop :=
  ∀ r < SIZE, ∀ c < SIZE, 1 ≤ getCell g r c ∧ getCell g r c ≤ 9

/-- No cell holds 0. -/
def Full (g : Grid) : Prop :=
  ∀ r < SIZE, ∀ c < SIZE, getCell g r c ≠ 0

/-- Cells `(r, c)` and `(r2, c2)` lie in one row, one column or one 3x3 subgrid. -/
def sameUnit (r c r2 c2 : Nat) : Prop :=
  r = r2 ∨ c = c2 ∨ (r / 3 = r2 / 3 ∧ c / 3 = c2 / 3)

/-- Cell `(r, c)` precedes cell `(r2, c2)` in row-major order. -/
def before (r c r2 c2 : Nat) : Prop :=
  r < r2 ∨ (r = r2 ∧ c < c2)

/-- The value of cell `(r, c)` occurs in no other cell of its row, its column
or its subgrid. -/
def NoOther (g : Grid) (r c : Nat) : Prop :=
  ∀ r2 < SIZE, ∀ c2 < SIZE, (r2, c2) ≠ (r, c) → sameUnit r c r2 c2 →
    getCell g r2 c2 ≠ getCell g r c

/-- The valid-state invariant: the value of a non-zero cell occurs in no other
cell of its row, its column or its subgrid. -/
def Valid (g : Grid) : Prop :=
  ∀ r < SIZE, ∀ c < SIZE, getCell g r c ≠ 0 → NoOther g r c

/-- The nine values of row `r`. -/
def rowVals (g : Grid) (r : Nat) : List Int :=
  (List.range SIZE).map (fun c => getCell g r c)

/-- The nine values of column `c`. -/
def colVals (g : Grid) (c : Nat) : List Int :=
  (List.range SIZE).map (fun r => getCell g r c)

/-- The nine values of subgrid `b` (subgrids numbered row-major, 0..8). -/
def boxVals (g : Grid) (b : Nat) : List Int :=
  (List.range SIZE).map (fun i => getCell g (3 * (b / 3) + i / 3) (3 * (b % 3) + i % 3))

/-- Every row, column and subgrid contains each digit 1..9 exactly once. -/
def EachOnce (g : Grid) : Prop :=
  ∀ u < SIZE, ∀ d ∈ nums,
    (rowVals g u).count d = 1 ∧ (colVals g u).count d = 1 ∧ (boxVals g u).count d = 1

/-- A solved grid: no 0 cell, and each digit once in every row, column, subgrid. -/
def Solved (g : Grid) : Prop :=
  Full g ∧ EachOnce g

/-- The digit `d` occupies some cell of row `row`, some cell of column `col`
or some cell of the 3x3 subgrid containing `(row, col)`. -/
def Occupied (g : Grid) (row col : Nat) (d : Int) : Prop :=
  (∃ c < SIZE, getCell g row c = d) ∨ (∃ r < SIZE, getCell g r col = d) ∨
    (∃ r < SIZE, ∃ c < SIZE, r / 3 = row / 3 ∧ c / 3 = col / 3 ∧ getCell g r c = d)

/-- The grid `s` agrees with `g` on every non-zero cell of `g`. -/
def Extends (g s : Grid) : Prop :=
  ∀ r < SIZE, ∀ c < SIZE, getCell g r c ≠ 0 → getCell s r c = getCell g r c

/-- The grid `s` is a completion of `g`. -/
def Completion (g s : Grid) : Prop :=
  WF s ∧ AllDigits s ∧ Extends g s ∧ EachOnce s

instance (g : Grid) : Decidable (WF g) := by unfold WF; infer_instance
instance (g : Grid) : Decidable (InRange g) := by unfold InRange; infer_instance
instance (g : Grid) : Decidable (AllDigits g) := by unfold AllDigits; infer_instance
instance (g : Grid) : Decidable (Full g) := by unfold Full; infer_instance
instance (r c r2 c2 : Nat) : Decidable (sameUnit r c r2 c2) := by unfold sameUnit; infer_instance
instance (r c r2 c2 : Nat) : Decidable (before r c r2 c2) := by unfold before; infer_instance
instance (g : Grid) (r c : Nat) : Decidable (NoOther g r c) := by unfold NoOther; infer_instance
instance (g : Grid) : Decidable (Valid g) := by unfold Valid; infer_instance
instance (g : Grid) : Decidable (EachOnce g) := by unfold EachOnce; infer_instance
instance (g : Grid) : Decidable (Solved g) := by unfold Solved; infer_instance
instance (g : Grid) (row col : Nat) (d : Int) : Decidable (Occupied g row col d) := by
  unfold Occupied; infer_instance
instance (g s : Grid) : Decidable (Extends g s) := by unfold Extends; infer_instance
instance (g s : Grid) : Decidable (Completion g s) := by unfold Completion; infer_instance

/-- The recursive call `solve`, when it fails on the grid with `d` placed at
`(row, col)`, hands that grid back unchanged. -/
def RestoresAt (solve : Grid → Option (Bool × Grid)) (g : Grid) (row col : Nat) : Prop :=
  ∀ d g1, solve (setCell g row col d) = some (false, g1) → g1 = setCell g row col d

/-- The grid `g1` is reached from `g` by repeatedly placing, in the first
empty cell, a candidate that `isValidPlacement` accepts, until no cell is empty. -/
inductive Fills : Grid → Grid → Prop
  | done (g : Grid) : findEmptyCell g = none → Fills g g
  | place (g g1 : Grid) (row col : Nat) (d : Int) :
      findEmptyCell g = some (row, col) → d ∈ nums → isValidPlacement g row col d = true →
      Fills (setCell g row col d) g1 → Fills g g1

/-- The recursion of `solveSudoku` in which a recursive call on a grid that
does not have exactly one empty cell fewer than the caller's grid is cut off
(result `none`). -/
def solveChecked : Nat → Grid → Option (Bool × Grid)
  | 0, _ => none
  | fuel + 1, g =>
    match findEmptyCell g with
    | none => some (true, g)
    | some (row, col) =>
      tryNums (fun x => if countEmpty x + 1 = countEmpty g then solveChecked fuel x else none)
        row col nums g

/-! ## Proof devices and concrete grids -/

/-- Proof device, not part of the program: walk the listed empty cells in
order; each must accept exactly one candidate, which is written into it. -/
def forcedFill : List (Nat × Nat) → Grid → Option Grid
  | [], g => some g
  | (row, col) :: rest, g =>
    if row < SIZE ∧ col < SIZE ∧ getCell g row col = 0 then
      match nums.filter (fun d => isValidPlacement g row col d) with
      | [d] => forcedFill rest (setCell g row col d)
      | _ => none
    else none

/-- An order in which every empty cell of the sample puzzle is forced. -/
def sampleOrder : List (Nat × Nat) :=
  [(4, 4), (5, 3), (6, 4), (6, 5), (6, 8), (7, 7), (2, 4), (2, 5), (2, 8), (3, 3), (4, 1),
   (4, 7), (6, 3), (7, 0), (7, 2), (7, 6), (8, 5), (8, 6), (0, 3), (0, 5), (0, 8), (1, 7),
   (1, 8), (2, 0), (2, 3), (2, 6), (3, 6), (4, 2), (4, 6), (5, 6), (5, 7), (6, 0), (6, 2),
   (7, 1), (8, 0), (8, 3), (0, 2), (0, 6), (0, 7), (1, 1), (1, 2), (1, 6), (3, 5), (3, 7),
   (5, 1), (5, 2), (5, 5), (8, 2), (3, 1), (3, 2), (8, 1)]

/-- The sample solution with its last row cleared. -/
def lastRowEmpty : Grid :=
  [[5, 3, 4, 6, 7, 8, 9, 1, 2],
   [6, 7, 2, 1, 9, 5, 3, 4, 8],
   [1, 9, 8, 3, 4, 2, 5, 6, 7],
   [8, 5, 9, 7, 6, 1, 4, 2, 3],
   [4, 2, 6, 8, 5, 3, 7, 9, 1],
   [7, 1, 3, 9, 2, 4, 8, 5, 6],
   [9, 6, 1, 5, 3, 7, 2, 8, 4],
   [2, 8, 7, 4, 1, 9, 6, 3, 5],
   [0, 0, 0, 0, 0, 0, 0, 0, 0]]

/-- A valid grid without completion: cell (0, 6) is empty and every digit
already occurs in its row or its column.  The first empty cell, (0, 0),
accepts 5. -/
def stuckGrid : Grid :=
  [[0, 3, 4, 6, 7, 8, 0, 1, 9],
   [6, 7, 2, 1, 9, 5, 3, 4, 8],
   [1, 9, 8, 3, 4, 2, 5, 6, 7],
   [8, 5, 9, 7, 6, 1, 4, 2, 3],
   [4, 2, 6, 8, 5, 3, 7, 9, 1],
   [7, 1, 3, 9, 2, 4, 8, 5, 6],
   [9, 6, 1, 5, 3, 7, 2, 8, 4],
   [2, 8, 7, 4, 1, 9, 6, 3, 5],
   [3, 4, 5, 2, 8, 6, 1, 7, 0]]

/-- A grid with two 5s in row 0 and one empty cell, (8, 8). -/
def twoFives : Grid :=
  [[5, 5, 4, 6, 7, 8, 9, 1, 2],
   [6, 7, 2, 1, 9, 5, 3, 4, 8],
   [1, 9, 8, 3, 4, 2, 5, 6, 7],
   [8, 5, 9, 7, 6, 1, 4, 2, 3],
   [4, 2, 6, 8, 5, 3, 7, 9, 1],
   [7, 1, 3, 9, 2, 4, 8, 5, 6],
   [9, 6, 1, 5, 3, 7, 2, 8, 4],
   [2, 8, 7, 4, 1, 9, 6, 3, 5],
   [3, 4, 5, 2, 8, 6, 1, 7, 0]]

/-- The grid `twoFives` with 9 written into its empty cell. -/
def twoFivesFilled : Grid :=
  [[5, 5, 4, 6, 7, 8, 9, 1, 2],
   [6, 7, 2, 1, 9, 5, 3, 4, 8],
   [1, 9, 8, 3, 4, 2, 5, 6, 7],
   [8, 5, 9, 7, 6, 1, 4, 2, 3],
   [4, 2, 6, 8, 5, 3, 7, 9, 1],
   [7, 1, 3, 9, 2, 4, 8, 5, 6],
   [9, 6, 1, 5, 3, 7, 2, 8, 4],
   [2, 8, 7, 4, 1, 9, 6, 3, 5],
   [3, 4, 5, 2, 8, 6, 1, 7, 9]]

/-! ## Checked recursion and checked access -/

/-- The recursion of `solveSudoku` in which a call on a grid that fails the
test `ok` is cut off (result `none`). -/
def solveOn (ok : Grid → Bool) : Nat → Grid → Option (Bool × Grid)
  | 0, _ => none
  | fuel + 1, g =>
    if ok g then
      match findEmptyCell g with
      | none => some (true, g)
      | some (row, col) => tryNums (solveOn ok fuel) row col nums g
    else none

/-- The grid `a` is smaller than `b` at the first cell, in row-major order,
where the two differ. -/
def LexLt (a b : Grid) : Prop :=
  ∃ r < SIZE, ∃ c < SIZE, getCell a r c < getCell b r c ∧
    ∀ r2 < SIZE, ∀ c2 < SIZE, before r2 c2 r c → getCell a r2 c2 = getCell b r2 c2

/-- Read `grid[row][col]` with both indices checked: `none` when `row` is not
an index of the grid or `col` is not an index of that row. -/
def getCellAt (g : Grid) (row col : Nat) : Option Int :=
  match g.get? row with
  | none => none
  | some r => r.get? col

/-- Write `grid[row][col] = v` with both indices checked. -/
def setCellAt (g : Grid) (row col : Nat) (v : Int) : Option Grid :=
  match g.get? row with
  | none => none
  | some r => if col < r.length then some (g.set row (r.set col v)) else none

/-- A scan `if (grid[r][c] == num) return false;` over the listed cells with
checked reads: `some true` when a cell holds `num`, `none` when a read is out
of range. -/
def anyAt (g : Grid) (num : Int) : List (Nat × Nat) → Option Bool
  | [] => some false
  | p :: rest =>
    match getCellAt g p.1 p.2 with
    | none => none
    | some v => if v == num then some true else anyAt g num rest

/-- Member `isValidPlacement(row, col, num)` with checked reads. -/
def isValidPlacementAt (g : Grid) (row col : Nat) (num : Int) : Option Bool :=
  match anyAt g num ((List.range SIZE).map (fun c => (row, c))) with
  | none => none
  | some true => some false
  | some false =>
    match anyAt g num ((List.range SIZE).map (fun r => (r, col))) with
    | none => none
    | some true => some false
    | some false =>
      let startRow := row - row % SUBGRID_SIZE
      let startCol := col - col % SUBGRID_SIZE
      match anyAt g num ((List.range SUBGRID_SIZE).flatMap (fun r =>
          (List.range SUBGRID_SIZE).map (fun c => (r + startRow, c + startCol)))) with
      | none => none
      | some true => some false
      | some false => some true

/-- The scan of `findEmptyCell` over the listed cells with checked reads. -/
def findAt (g : Grid) : List (Nat × Nat) → Option (Option (Nat × Nat))
  | [] => some none
  | p :: rest =>
    match getCellAt g p.1 p.2 with
    | none => none
    | some v => if v == 0 then some (some p) else findAt g rest

/-- Member `findEmptyCell(row, col)` with checked reads. -/
def findEmptyCellAt (g : Grid) : Option (Option (Nat × Nat)) :=
  findAt g cells

/-- The candidate loop of `solveSudoku` with checked reads and writes. -/
def tryNumsAt (solve : Grid → Option (Bool × Grid)) (row col : Nat) :
    List Int → Grid → Option (Bool × Grid)
  | [], g => some (false, g)
  | num :: rest, g =>
    match isValidPlacementAt g row col num with
    | none => none
    | some false => tryNumsAt solve row col rest g
    | some true =>
      match setCellAt g row col num with
      | none => none
      | some g2 =>
        match solve g2 with
        | none => none
        | some (true, g1) => some (true, g1)
        | some (false, g1) =>
          match setCellAt g1 row col 0 with
          | none => none
          | some g3 => tryNumsAt solve row col rest g3

/-- Member `solveSudoku()` with checked reads and writes and a bound on the
number of nested frames. -/
def solveSudokuFuelAt : Nat → Grid → Option (Bool × Grid)
  | 0, _ => none
  | fuel + 1, g =>
    match findEmptyCellAt g with
    | none => none
    | some none => some (true, g)
    | some (some (row, col)) => tryNumsAt (solveSudokuFuelAt fuel) row col nums g

/-- Member `solveSudoku()` with checked reads and writes. -/
def solveSudokuAt (g : Grid) : Option (Bool × Grid) :=
  solveSudokuFuelAt (countEmpty g + 1) g

/-- The loop of `isValidGrid` with checked reads and writes. -/
def isValidGridLoopAt : List (Nat × Nat) → Grid → Option (Bool × Grid)
  | [], g => some (true, g)
  | (row, col) :: rest, g =>
    match getCellAt g row col with
    | none => none
    | some temp =>
      if temp ≠ 0 then
        match setCellAt g row col 0 with
        | none => none
        | some g1 =>
          match isValidPlacementAt g1 row col temp, setCellAt g1 row col temp with
          | some false, some g2 => some (false, g2)
          | some true, some g2 => isValidGridLoopAt rest g2
          | _, _ => none
      else isValidGridLoopAt rest g

/-- Member `isValidGrid()` with checked reads and writes. -/
def isValidGridAt (g : Grid) : Option (Bool × Grid) :=
  isValidGridLoopAt cells g

/-! ## Reading and writing cells -/

theorem getCell_setCell_ne (g : Grid) (r c r2 c2 : Nat) (v : Int)
    (h : ¬ (r2 = r ∧ c2 = c)) :
    getCell (setCell g r c v) r2 c2 = getCell g r2 c2 := by
  unfold getCell setCell
  simp only [List.getD_eq_getElem?_getD]
  by_cases hr : r = r2
  · subst hr
    have hc : c ≠ c2 := fun hc => h ⟨rfl, hc.symm⟩
    by_cases hlt : r < g.length
    · simp [List.getElem?_set, hlt, hc]
    · simp [List.getElem?_set, hlt, List.getElem?_eq_none (Nat.le_of_not_lt hlt)]
  · simp [List.getElem?_set, hr]

theorem getCell_setCell_eq (g : Grid) (r c : Nat) (v : Int) (hg : WF g)
    (hr : r < SIZE) (hc : c < SIZE) :
    getCell (setCell g r c v) r c = v := by
  obtain ⟨hlen, hrows⟩ := hg
  have hlt : r < g.length := by omega
  have hrow : (g[r]).length = SIZE := hrows _ (List.getElem_mem _)
  unfold getCell setCell
  simp [List.getElem?_set, hlt, hrow, hc]

theorem WF_setCell (g : Grid) (r c : Nat) (v : Int) (hg : WF g) :
    WF (setCell g r c v) := by
  obtain ⟨hlen, hrows⟩ := hg
  refine ⟨by simp [setCell, hlen], ?_⟩
  intro x hx
  unfold setCell at hx
  rcases List.mem_or_eq_of_mem_set hx with h | h
  · exact hrows x h
  · subst h
    simp only [List.length_set, List.getD_eq_getElem?_getD]
    by_cases hlt : r < g.length
    · simp [hlt, hrows _ (List.getElem_mem hlt)]
    · simp [List.getElem?_eq_none (Nat.le_of_not_lt hlt)] at hx
      rw [List.set_eq_of_length_le (Nat.le_of_not_lt hlt)] at hx
      exact absurd (hrows _ hx) (by simp [SIZE])

theorem getCell_setCell (g : Grid) (r c r2 c2 : Nat) (v : Int) (hg : WF g)
    (hr : r < SIZE) (hc : c < SIZE) :
    getCell (setCell g r c v) r2 c2 = if r2 = r ∧ c2 = c then v else getCell g r2 c2 := by
  by_cases h : r2 = r ∧ c2 = c
  · obtain ⟨rfl, rfl⟩ := h
    simp [getCell_setCell_eq g r2 c2 v hg hr hc]
  · simp [h, getCell_setCell_ne g r c r2 c2 v h]

theorem row_ext (a b : List Int) (ha : a.length = SIZE) (hb : b.length = SIZE)
    (h : ∀ c < SIZE, a.getD c 0 = b.getD c 0) : a = b := by
  apply List.ext_getElem (by omega)
  intro n h1 h2
  have := h n (by omega)
  simpa [List.getD_eq_getElem?_getD, h1, h2] using this

theorem grid_ext (g g2 : Grid) (hg : WF g) (hg2 : WF g2)
    (h : ∀ r < SIZE, ∀ c < SIZE, getCell g r c = getCell g2 r c) : g = g2 := by
  obtain ⟨hlen, hrows⟩ := hg
  obtain ⟨hlen2, hrows2⟩ := hg2
  apply List.ext_getElem (by omega)
  intro n h1 h2
  apply row_ext _ _ (hrows _ (List.getElem_mem h1)) (hrows2 _ (List.getElem_mem h2))
  intro c hc
  have := h n (by omega) c hc
  simpa [getCell, List.getD_eq_getElem?_getD, h1, h2] using this

/-- Writing a value and then writing back what the cell held restores the grid. -/
theorem setCell_restore (g : Grid) (r c : Nat) (v : Int) (hg : WF g)
    (hr : r < SIZE) (hc : c < SIZE) :
    setCell (setCell g r c v) r c (getCell g r c) = g := by
  apply grid_ext _ _ (WF_setCell _ _ _ _ (WF_setCell _ _ _ _ hg)) hg
  intro r2 hr2 c2 hc2
  rw [getCell_setCell _ _ _ _ _ _ (WF_setCell _ _ _ _ hg) hr hc]
  by_cases h : r2 = r ∧ c2 = c
  · obtain ⟨rfl, rfl⟩ := h
    simp
  · simp [h, getCell_setCell_ne g r c r2 c2 v h]

/-! ## The scans of `isValidPlacement` -/

theorem box_index (row r2 : Nat) (hrow : row < SIZE) :
    (∃ r < SUBGRID_SIZE, r2 = r + (row - row % SUBGRID_SIZE)) ↔ (r2 < SIZE ∧ row / 3 = r2 / 3) := by
  simp only [SIZE, SUBGRID_SIZE] at *
  constructor
  · rintro ⟨r, hr, rfl⟩
    omega
  · rintro ⟨h1, h2⟩
    exact ⟨r2 % 3, by omega, by omega⟩

/-- What `isValidPlacement` computes: no cell of the row, of the column or of
the subgrid of `(row, col)`, that cell included, holds `num`. -/
theorem isValidPlacement_iff (g : Grid) (row col : Nat) (num : Int)
    (hrow : row < SIZE) (hcol : col < SIZE) :
    isValidPlacement g row col num = true ↔
      ∀ r2 < SIZE, ∀ c2 < SIZE, sameUnit row col r2 c2 → getCell g r2 c2 ≠ num := by
  unfold isValidPlacement
  constructor
  · intro h
    split at h
    · exact absurd h (by simp)
    rename_i h1
    split at h
    · exact absurd h (by simp)
    rename_i h2
    simp only at h
    split at h
    · exact absurd h (by simp)
    rename_i h3
    simp only [List.any_eq_true, List.mem_range, beq_iff_eq, not_exists, not_and] at h1 h2 h3
    intro r2 hr2 c2 hc2 hu
    rcases hu with rfl | rfl | ⟨hb1, hb2⟩
    · exact h1 c2 hc2
    · exact h2 r2 hr2
    · obtain ⟨r, hr, rfl⟩ := (box_index row r2 hrow).mpr ⟨hr2, hb1⟩
      obtain ⟨c, hc, rfl⟩ := (box_index col c2 hcol).mpr ⟨hc2, hb2⟩
      exact h3 r hr c hc
  · intro h
    have h1 : ¬ ((List.range SIZE).any (fun c => getCell g row c == num) = true) := by
      simp only [List.any_eq_true, List.mem_range, beq_iff_eq, not_exists, not_and]
      intro c hc
      exact h row hrow c hc (Or.inl rfl)
    have h2 : ¬ ((List.range SIZE).any (fun r => getCell g r col == num) = true) := by
      simp only [List.any_eq_true, List.mem_range, beq_iff_eq, not_exists, not_and]
      intro r hr
      exact h r hr col hcol (Or.inr (Or.inl rfl))
    have h3 : ¬ ((List.range SUBGRID_SIZE).any (fun r =>
        (List.range SUBGRID_SIZE).any (fun c =>
          getCell g (r + (row - row % SUBGRID_SIZE)) (c + (col - col % SUBGRID_SIZE)) == num))
          = true) := by
      simp only [List.any_eq_true, List.mem_range, beq_iff_eq, not_exists, not_and]
      intro r hr c hc
      obtain ⟨hr2, hb1⟩ := (box_index row _ hrow).mp ⟨r, hr, rfl⟩
      obtain ⟨hc2, hb2⟩ := (box_index col _ hcol).mp ⟨c, hc, rfl⟩
      exact h _ hr2 _ hc2 (Or.inr (Or.inr ⟨hb1, hb2⟩))
    simp [h1, h2, h3]

/-! ## The row-major scan -/

theorem mem_cells (r c : Nat) : (r, c) ∈ cells ↔ r < SIZE ∧ c < SIZE := by
  simp [cells]

theorem cells_nodup : cells.Nodup := by decide

theorem cells_sorted : cells.Pairwise (fun p q => before p.1 p.2 q.1 q.2) := by decide

/-- A scan with `find?` over a list sorted by `lt` returns the least match. -/
theorem find?_least {α : Type} (lt : α → α → Prop) (p : α → Bool) (l : List α) (b : α)
    (hl : l.Pairwise lt) (hirr : ∀ a, ¬ lt a a) (hasym : ∀ a b, lt a b → ¬ lt b a)
    (h : l.find? p = some b) : ∀ a ∈ l, lt a b → p a = false := by
  obtain ⟨_, pre, post, rfl, hpre⟩ := List.find?_eq_some.mp h
  intro a ha hab
  rw [List.pairwise_append] at hl
  obtain ⟨_, hpost, _⟩ := hl
  rcases List.mem_append.mp ha with h1 | h1
  · simpa using hpre a h1
  · rcases List.mem_cons.mp h1 with h2 | h2
    · subst h2
      exact absurd hab (hirr _)
    · exact absurd ((List.pairwise_cons.mp hpost).1 a h2) (hasym _ _ hab)

theorem findEmptyCell_some (g : Grid) (row col : Nat) (h : findEmptyCell g = some (row, col)) :
    row < SIZE ∧ col < SIZE ∧ getCell g row col = 0 ∧
      ∀ r2 < SIZE, ∀ c2 < SIZE, before r2 c2 row col → getCell g r2 c2 ≠ 0 := by
  unfold findEmptyCell at h
  have hmem := List.mem_of_find?_eq_some h
  have hp := List.find?_some h
  rw [mem_cells] at hmem
  refine ⟨hmem.1, hmem.2, by simpa using hp, ?_⟩
  intro r2 hr2 c2 hc2 hb
  have := find?_least (fun p q : Nat × Nat => before p.1 p.2 q.1 q.2) _ cells (row, col)
    cells_sorted (by intro a; unfold before; omega) (by intro a b; unfold before; omega) h
    (r2, c2) ((mem_cells r2 c2).mpr ⟨hr2, hc2⟩) hb
  simpa using this

theorem findEmptyCell_none (g : Grid) : findEmptyCell g = none ↔ Full g := by
  unfold findEmptyCell Full
  rw [List.find?_eq_none]
  constructor
  · intro h r hr c hc
    simpa using h (r, c) ((mem_cells r c).mpr ⟨hr, hc⟩)
  · intro h p hp
    obtain ⟨r, c⟩ := p
    rw [mem_cells] at hp
    simpa using h r hp.1 c hp.2

/-! ## Counting empty cells -/

theorem filter_length_congr {α : Type} (p q : α → Bool) (l : List α)
    (h : ∀ a ∈ l, p a = q a) : (l.filter p).length = (l.filter q).length := by
  induction l with
  | nil => rfl
  | cons a l ih =>
    have ha := h a (List.mem_cons_self _ _)
    have ih2 := ih (fun b hb => h b (List.mem_cons_of_mem _ hb))
    simp only [List.filter_cons, ha]
    split <;> simp [ih2]

theorem filter_length_flip {α : Type} (p q : α → Bool) (x : α) (l : List α)
    (hl : l.Nodup) (hx : x ∈ l) (hpx : p x = true) (hqx : q x = false)
    (h : ∀ a ∈ l, a ≠ x → p a = q a) :
    (l.filter p).length = (l.filter q).length + 1 := by
  induction l with
  | nil => simp at hx
  | cons a l ih =>
    obtain ⟨hnot, hl2⟩ := List.nodup_cons.mp hl
    by_cases hax : a = x
    · subst hax
      have hrest := filter_length_congr p q l (fun b hb =>
        h b (List.mem_cons_of_mem _ hb) (fun hba => hnot (hba ▸ hb)))
      simp [List.filter_cons, hpx, hqx, hrest]
    · have hx2 : x ∈ l := by
        rcases List.mem_cons.mp hx with h1 | h1
        · exact absurd h1.symm hax
        · exact h1
      have ih2 := ih hl2 hx2 (fun b hb => h b (List.mem_cons_of_mem _ hb))
      have ha := h a (List.mem_cons_self _ _) hax
      simp only [List.filter_cons, ha]
      split <;> simp [ih2]

/-- Writing a non-zero value into an empty cell removes exactly one empty cell. -/
theorem countEmpty_setCell (g : Grid) (row col : Nat) (v : Int) (hg : WF g)
    (hrow : row < SIZE) (hcol : col < SIZE) (h0 : getCell g row col = 0) (hv : v ≠ 0) :
    countEmpty (setCell g row col v) + 1 = countEmpty g := by
  unfold countEmpty
  symm
  apply filter_length_flip _ _ (row, col) cells cells_nodup ((mem_cells _ _).mpr ⟨hrow, hcol⟩)
  · simp [h0]
  · simp [getCell_setCell_eq g row col v hg hrow hcol, hv]
  · rintro ⟨r2, c2⟩ _ hne
    have : ¬ (r2 = row ∧ c2 = col) := fun h => hne (by rw [h.1, h.2])
    simp [getCell_setCell_ne g row col r2 c2 v this]

theorem countEmpty_le (g : Grid) : countEmpty g ≤ 81 := by
  unfold countEmpty
  exact (List.length_filter_le _ _).trans (by decide)

theorem nums_ne_zero (d : Int) (hd : d ∈ nums) : d ≠ 0 := by
  intro h
  subst h
  revert hd
  decide

theorem mem_nums (d : Int) : d ∈ nums ↔ 1 ≤ d ∧ d ≤ 9 := by
  unfold nums
  simp only [List.mem_cons, List.mem_singleton, List.mem_nil_iff, or_false]
  omega

/-! ## The candidate loop of `solveSudoku` -/

theorem setCell_clear (g : Grid) (row col : Nat) (d : Int) (hg : WF g)
    (hrow : row < SIZE) (hcol : col < SIZE) (h0 : getCell g row col = 0) :
    setCell (setCell g row col d) row col 0 = g := by
  have := setCell_restore g row col d hg hrow hcol
  rwa [h0] at this

theorem tryNums_false (solve : Grid → Option (Bool × Grid)) (g : Grid) (row col : Nat)
    (hg : WF g) (hrow : row < SIZE) (hcol : col < SIZE) (h0 : getCell g row col = 0)
    (hres : RestoresAt solve g row col) (ds : List Int) (g2 : Grid)
    (h : tryNums solve row col ds g = some (false, g2)) :
    g2 = g ∧ ∀ d ∈ ds, isValidPlacement g row col d = true →
      solve (setCell g row col d) = some (false, setCell g row col d) := by
  induction ds with
  | nil =>
    simp only [tryNums, Option.some.injEq, Prod.mk.injEq, true_and] at h
    exact ⟨h.symm, by simp⟩
  | cons d rest ih =>
    unfold tryNums at h
    by_cases hv : isValidPlacement g row col d = true
    · simp only [hv, if_true] at h
      cases hs : solve (setCell g row col d) with
      | none => simp [hs] at h
      | some res =>
        obtain ⟨b, g1⟩ := res
        cases b with
        | true => simp [hs] at h
        | false =>
          simp only [hs] at h
          have hg1 := hres d g1 hs
          subst hg1
          rw [setCell_clear g row col d hg hrow hcol h0] at h
          obtain ⟨h1, h2⟩ := ih h
          refine ⟨h1, ?_⟩
          intro e he hev
          rcases List.mem_cons.mp he with rfl | he2
          · exact hs
          · exact h2 e he2 hev
    · simp only [hv] at h
      obtain ⟨h1, h2⟩ := ih h
      refine ⟨h1, ?_⟩
      intro e he hev
      rcases List.mem_cons.mp he with rfl | he2
      · exact absurd hev hv
      · exact h2 e he2 hev

theorem tryNums_true (solve : Grid → Option (Bool × Grid)) (g : Grid) (row col : Nat)
    (hg : WF g) (hrow : row < SIZE) (hcol : col < SIZE) (h0 : getCell g row col = 0)
    (hres : RestoresAt solve g row col) (ds : List Int) (g2 : Grid)
    (h : tryNums solve row col ds g = some (true, g2)) :
    ∃ pre d post, ds = pre ++ d :: post ∧ isValidPlacement g row col d = true ∧
      solve (setCell g row col d) = some (true, g2) ∧
      ∀ e ∈ pre, isValidPlacement g row col e = true →
        solve (setCell g row col e) = some (false, setCell g row col e) := by
  induction ds with
  | nil => simp [tryNums] at h
  | cons d rest ih =>
    unfold tryNums at h
    by_cases hv : isValidPlacement g row col d = true
    · simp only [hv, if_true] at h
      cases hs : solve (setCell g row col d) with
      | none => simp [hs] at h
      | some res =>
        obtain ⟨b, g1⟩ := res
        cases b with
        | true =>
          simp only [hs, Option.some.injEq, Prod.mk.injEq, true_and] at h
          subst h
          exact ⟨[], d, rest, rfl, hv, hs, by simp⟩
        | false =>
          simp only [hs] at h
          have hg1 := hres d g1 hs
          subst hg1
          rw [setCell_clear g row col d hg hrow hcol h0] at h
          obtain ⟨pre, e, post, h1, h2, h3, h4⟩ := ih h
          refine ⟨d :: pre, e, post, by simp [h1], h2, h3, ?_⟩
          intro x hx hxv
          rcases List.mem_cons.mp hx with rfl | hx2
          · exact hs
          · exact h4 x hx2 hxv
    · simp only [hv] at h
      obtain ⟨pre, e, post, h1, h2, h3, h4⟩ := ih h
      refine ⟨d :: pre, e, post, by simp [h1], h2, h3, ?_⟩
      intro x hx hxv
      rcases List.mem_cons.mp hx with rfl | hx2
      · exact absurd hxv hv
      · exact h4 x hx2 hxv

theorem tryNums_isSome (solve : Grid → Option (Bool × Grid)) (g : Grid) (row col : Nat)
    (hg : WF g) (hrow : row < SIZE) (hcol : col < SIZE) (h0 : getCell g row col = 0)
    (hres : RestoresAt solve g row col) (ds : List Int)
    (h : ∀ d ∈ ds, isValidPlacement g row col d = true →
      ∃ res, solve (setCell g row col d) = some res) :
    ∃ res, tryNums solve row col ds g = some res := by
  induction ds with
  | nil => exact ⟨_, rfl⟩
  | cons d rest ih =>
    have ih2 := ih (fun e he => h e (List.mem_cons_of_mem _ he))
    unfold tryNums
    by_cases hv : isValidPlacement g row col d = true
    · simp only [hv, if_true]
      obtain ⟨⟨b, g1⟩, hs⟩ := h d (List.mem_cons_self _ _) hv
      cases b with
      | true => exact ⟨(true, g1), by simp [hs]⟩
      | false =>
        have hg1 := hres d g1 hs
        subst hg1
        simp only [hs]
        rw [setCell_clear g row col d hg hrow hcol h0]
        exact ih2
    · simp only [hv]
      exact ih2

/-! ## The recursion of `solveSudoku` -/

theorem solveSudokuFuel_succ (fuel : Nat) (g : Grid) :
    solveSudokuFuel (fuel + 1) g =
      match findEmptyCell g with
      | none => some (true, g)
      | some (row, col) => tryNums (solveSudokuFuel fuel) row col nums g := rfl

/-- A failing call hands the grid back as it received it. -/
theorem solveSudokuFuel_false (fuel : Nat) : ∀ (g : Grid), WF g → ∀ g1,
    solveSudokuFuel fuel g = some (false, g1) → g1 = g := by
  induction fuel with
  | zero => intro g _ g1 h; simp [solveSudokuFuel] at h
  | succ fuel ih =>
    intro g hg g1 h
    rw [solveSudokuFuel_succ] at h
    cases hf : findEmptyCell g with
    | none => simp [hf] at h
    | some p =>
      obtain ⟨row, col⟩ := p
      simp only [hf] at h
      obtain ⟨hrow, hcol, h0, _⟩ := findEmptyCell_some g row col hf
      exact (tryNums_false _ g row col hg hrow hcol h0
        (fun d g2 hd => ih _ (WF_setCell g row col d hg) g2 hd) nums g1 h).1

theorem restoresAt_solveSudokuFuel (fuel : Nat) (g : Grid) (row col : Nat) (hg : WF g) :
    RestoresAt (solveSudokuFuel fuel) g row col :=
  fun d g2 hd => solveSudokuFuel_false fuel _ (WF_setCell g row col d hg) g2 hd

/-- With more frames than empty cells the call returns. -/
theorem solveSudokuFuel_total (fuel : Nat) : ∀ (g : Grid), WF g → countEmpty g < fuel →
    ∃ res, solveSudokuFuel fuel g = some res := by
  induction fuel with
  | zero => intro g _ h; omega
  | succ fuel ih =>
    intro g hg hcount
    rw [solveSudokuFuel_succ]
    cases hf : findEmptyCell g with
    | none => exact ⟨_, rfl⟩
    | some p =>
      obtain ⟨row, col⟩ := p
      simp only
      obtain ⟨hrow, hcol, h0, _⟩ := findEmptyCell_some g row col hf
      apply tryNums_isSome _ g row col hg hrow hcol h0
        (restoresAt_solveSudokuFuel fuel g row col hg)
      intro d hd _
      apply ih _ (WF_setCell g row col d hg)
      have := countEmpty_setCell g row col d hg hrow hcol h0 (nums_ne_zero d hd)
      omega

/-- A successful call returns a grid reached by accepted placements. -/
theorem solveSudokuFuel_true (fuel : Nat) : ∀ (g : Grid), WF g → ∀ g1,
    solveSudokuFuel fuel g = some (true, g1) → Fills g g1 := by
  induction fuel with
  | zero => intro g _ g1 h; simp [solveSudokuFuel] at h
  | succ fuel ih =>
    intro g hg g1 h
    rw [solveSudokuFuel_succ] at h
    cases hf : findEmptyCell g with
    | none =>
      simp only [hf, Option.some.injEq, Prod.mk.injEq, true_and] at h
      subst h
      exact Fills.done g hf
    | some p =>
      obtain ⟨row, col⟩ := p
      simp only [hf] at h
      obtain ⟨hrow, hcol, h0, _⟩ := findEmptyCell_some g row col hf
      obtain ⟨pre, d, post, hsplit, hv, hs, _⟩ := tryNums_true _ g row col hg hrow hcol h0
        (restoresAt_solveSudokuFuel fuel g row col hg) nums g1 h
      have hd : d ∈ nums := by rw [hsplit]; simp
      exact Fills.place g g1 row col d hf hd hv (ih _ (WF_setCell g row col d hg) g1 hs)

/-! ## What accepted placements preserve -/

theorem sameUnit_symm (r c r2 c2 : Nat) (h : sameUnit r c r2 c2) : sameUnit r2 c2 r c := by
  unfold sameUnit at *
  omega

/-- An accepted placement of a non-zero value keeps the grid valid. -/
theorem valid_setCell (g : Grid) (row col : Nat) (d : Int) (hg : WF g) (hv : Valid g)
    (hrow : row < SIZE) (hcol : col < SIZE)
    (hp : isValidPlacement g row col d = true) : Valid (setCell g row col d) := by
  rw [isValidPlacement_iff g row col d hrow hcol] at hp
  intro r hr c hc hne r2 hr2 c2 hc2 hdiff hu
  rw [getCell_setCell g row col r c d hg hrow hcol] at hne ⊢
  rw [getCell_setCell g row col r2 c2 d hg hrow hcol]
  by_cases h1 : r = row ∧ c = col
  · obtain ⟨rfl, rfl⟩ := h1
    have h2 : ¬ (r2 = r ∧ c2 = c) := fun h => hdiff (by rw [h.1, h.2])
    simp only [h2, if_false, and_self, if_true]
    exact hp r2 hr2 c2 hc2 hu
  · simp only [h1, if_false] at hne ⊢
    by_cases h2 : r2 = row ∧ c2 = col
    · obtain ⟨rfl, rfl⟩ := h2
      simp only [and_self, if_true]
      exact fun h => hp r hr c hc (sameUnit_symm _ _ _ _ hu) h.symm
    · simp only [h2, if_false]
      exact hv r hr c hc hne r2 hr2 c2 hc2 hdiff hu

theorem inRange_setCell (g : Grid) (row col : Nat) (d : Int) (hg : WF g) (hv : InRange g)
    (hrow : row < SIZE) (hcol : col < SIZE) (hd : d ∈ nums) :
    InRange (setCell g row col d) := by
  intro r hr c hc
  rw [getCell_setCell g row col r c d hg hrow hcol]
  split
  · have := (mem_nums d).mp hd
    omega
  · exact hv r hr c hc

theorem extends_setCell (g : Grid) (row col : Nat) (d : Int) (hg : WF g)
    (hrow : row < SIZE) (hcol : col < SIZE) (h0 : getCell g row col = 0) :
    Extends g (setCell g row col d) := by
  intro r hr c hc hne
  rw [getCell_setCell g row col r c d hg hrow hcol]
  split
  · rename_i h
    obtain ⟨rfl, rfl⟩ := h
    exact absurd h0 hne
  · rfl

theorem extends_trans (a b c : Grid) (hab : Extends a b) (hbc : Extends b c) : Extends a c := by
  intro r hr k hk hne
  have h1 := hab r hr k hk hne
  have h2 := hbc r hr k hk (by rw [h1]; exact hne)
  rw [h2, h1]

theorem fills_spec (g g1 : Grid) (h : Fills g g1) : WF g →
    WF g1 ∧ Full g1 ∧ Extends g g1 ∧ (Valid g → Valid g1) ∧ (InRange g → InRange g1) := by
  induction h with
  | done g hf =>
    intro hg
    exact ⟨hg, (findEmptyCell_none g).mp hf, fun _ _ _ _ _ => rfl, id, id⟩
  | place g g1 row col d hf hd hp _ ih =>
    intro hg
    obtain ⟨hrow, hcol, h0, _⟩ := findEmptyCell_some g row col hf
    obtain ⟨h1, h2, h3, h4, h5⟩ := ih (WF_setCell g row col d hg)
    refine ⟨h1, h2, extends_trans _ _ _ (extends_setCell g row col d hg hrow hcol h0) h3, ?_, ?_⟩
    · exact fun hv => h4 (valid_setCell g row col d hg hv hrow hcol hp)
    · exact fun hr => h5 (inRange_setCell g row col d hg hr hrow hcol hd)

/-! ## Nine distinct digits are each digit once -/

theorem nums_nodup : nums.Nodup := by decide

theorem count_one_of_distinct (f : Nat → Int) (hdig : ∀ i < SIZE, f i ∈ nums)
    (hinj : ∀ i < SIZE, ∀ j < SIZE, i ≠ j → f i ≠ f j) :
    ∀ d ∈ nums, ((List.range SIZE).map f).count d = 1 := by
  have hnd : ((List.range SIZE).map f).Nodup := by
    apply List.Nodup.map_on _ (List.nodup_range _)
    intro x hx y hy hxy
    by_contra hne
    exact hinj x (List.mem_range.mp hx) y (List.mem_range.mp hy) hne hxy
  have hsub : (List.range SIZE).map f ⊆ nums := by
    intro x hx
    obtain ⟨i, hi, rfl⟩ := List.mem_map.mp hx
    exact hdig i (List.mem_range.mp hi)
  have hperm : ((List.range SIZE).map f).Perm nums :=
    (List.subperm_of_subset hnd hsub).perm_of_length_le (by simp [nums, SIZE])
  intro d hd
  rw [hperm.count_eq]
  exact List.count_eq_one_of_mem nums_nodup hd

theorem distinct_of_count_one (f : Nat → Int) (hdig : ∀ i < SIZE, f i ∈ nums)
    (hcount : ∀ d ∈ nums, ((List.range SIZE).map f).count d = 1) :
    ∀ i < SIZE, ∀ j < SIZE, i ≠ j → f i ≠ f j := by
  have hnd : ((List.range SIZE).map f).Nodup := by
    rw [List.nodup_iff_count_le_one]
    intro a
    by_cases ha : a ∈ nums
    · exact (hcount a ha).le
    · have : a ∉ (List.range SIZE).map f := by
        intro hmem
        obtain ⟨i, hi, rfl⟩ := List.mem_map.mp hmem
        exact ha (hdig i (List.mem_range.mp hi))
      simp [List.count_eq_zero_of_not_mem this]
  intro i hi j hj hne hij
  exact hne (List.inj_on_of_nodup_map hnd (List.mem_range.mpr hi) (List.mem_range.mpr hj) hij)

/-- A full valid grid over 0..9 has each digit once in every row, column, subgrid. -/
theorem eachOnce_of_valid (g : Grid) (hf : Full g) (hr : InRange g) (hv : Valid g) :
    EachOnce g := by
  have hdig : ∀ r < SIZE, ∀ c < SIZE, getCell g r c ∈ nums := by
    intro r hr2 c hc
    rw [mem_nums]
    have h1 := hr r hr2 c hc
    have h2 := hf r hr2 c hc
    omega
  intro u hu d hd
  simp only [SIZE] at hu
  refine ⟨?_, ?_, ?_⟩
  · apply count_one_of_distinct (fun c => getCell g u c) (fun i hi => hdig u hu i hi) _ d hd
    intro i hi j hj hne
    exact hv u hu j hj (hf u hu j hj) u hu i hi (by simp [hne]) (Or.inl rfl)
  · apply count_one_of_distinct (fun r => getCell g r u) (fun i hi => hdig i hi u hu) _ d hd
    intro i hi j hj hne
    exact hv j hj u hu (hf j hj u hu) i hi u hu (by simp [hne]) (Or.inr (Or.inl rfl))
  · apply count_one_of_distinct
      (fun i => getCell g (3 * (u / 3) + i / 3) (3 * (u % 3) + i % 3)) _ _ d hd
    · intro i hi
      simp only [SIZE] at hi
      exact hdig _ (by simp only [SIZE]; omega) _ (by simp only [SIZE]; omega)
    · intro i hi j hj hne
      simp only [SIZE] at hi hj
      have b1 : 3 * (u / 3) + j / 3 < SIZE := by simp only [SIZE]; omega
      have b2 : 3 * (u % 3) + j % 3 < SIZE := by simp only [SIZE]; omega
      have b3 : 3 * (u / 3) + i / 3 < SIZE := by simp only [SIZE]; omega
      have b4 : 3 * (u % 3) + i % 3 < SIZE := by simp only [SIZE]; omega
      apply hv _ b1 _ b2 (hf _ b1 _ b2) _ b3 _ b4
      · simp only [ne_eq, Prod.mk.injEq, not_and]
        omega
      · right; right
        constructor <;> omega

/-- Where each digit occurs once in every row, column and subgrid, no value
occurs twice in one. -/
theorem noOther_of_eachOnce (s : Grid) (hd : AllDigits s) (he : EachOnce s)
    (r c : Nat) (hr : r < SIZE) (hc : c < SIZE) : NoOther s r c := by
  have hdig : ∀ r < SIZE, ∀ c < SIZE, getCell s r c ∈ nums := by
    intro r hr2 c hc
    rw [mem_nums]
    exact hd r hr2 c hc
  intro r2 hr2 c2 hc2 hne hu
  simp only [ne_eq, Prod.mk.injEq, not_and] at hne
  rcases hu with rfl | rfl | ⟨hb1, hb2⟩
  · exact distinct_of_count_one (fun c => getCell s r c) (fun i hi => hdig r hr i hi)
      (fun d hd => (he r hr d hd).1) c2 hc2 c hc (fun h => hne rfl h)
  · by_cases hrr : r2 = r
    · exact absurd rfl (hne hrr)
    · exact distinct_of_count_one (fun r => getCell s r c) (fun i hi => hdig i hi c hc)
        (fun d hd => (he c hc d hd).2.1) r2 hr2 r hr hrr
  · simp only [SIZE] at hr hc hr2 hc2
    have key := distinct_of_count_one
      (fun i => getCell s (3 * ((3 * (r / 3) + c / 3) / 3) + i / 3)
        (3 * ((3 * (r / 3) + c / 3) % 3) + i % 3))
      (fun i hi => by
        simp only [SIZE] at hi
        exact hdig _ (by simp only [SIZE]; omega) _ (by simp only [SIZE]; omega))
      (fun d hd => (he (3 * (r / 3) + c / 3) (by simp only [SIZE]; omega) d hd).2.2)
      (3 * (r2 % 3) + c2 % 3) (by simp only [SIZE]; omega)
      (3 * (r % 3) + c % 3) (by simp only [SIZE]; omega) (by omega)
    have e1 : 3 * ((3 * (r / 3) + c / 3) / 3) + (3 * (r2 % 3) + c2 % 3) / 3 = r2 := by omega
    have e2 : 3 * ((3 * (r / 3) + c / 3) % 3) + (3 * (r2 % 3) + c2 % 3) % 3 = c2 := by omega
    have e3 : 3 * ((3 * (r / 3) + c / 3) / 3) + (3 * (r % 3) + c % 3) / 3 = r := by omega
    have e4 : 3 * ((3 * (r / 3) + c / 3) % 3) + (3 * (r % 3) + c % 3) % 3 = c := by omega
    simp only [e1, e2, e3, e4] at key
    exact key

/-! ## Completions -/

/-- Only a valid grid has a completion. -/
theorem valid_of_completion (g s : Grid) (hs : Completion g s) : Valid g := by
  obtain ⟨_, hdig, hext, hone⟩ := hs
  intro r hr c hc hne r2 hr2 c2 hc2 hdiff hu heq
  have h1 := hext r hr c hc hne
  have h2 := hext r2 hr2 c2 hc2 (by rw [heq]; exact hne)
  exact noOther_of_eachOnce s hdig hone r c hr hc r2 hr2 c2 hc2 hdiff hu
    (by rw [h1, h2, heq])

/-- The value a completion holds at an empty cell is accepted by
`isValidPlacement`, and the completion completes the grid with it placed. -/
theorem completion_step (g s : Grid) (row col : Nat) (hg : WF g) (hs : Completion g s)
    (hrow : row < SIZE) (hcol : col < SIZE) (h0 : getCell g row col = 0) :
    getCell s row col ∈ nums ∧ isValidPlacement g row col (getCell s row col) = true ∧
      Completion (setCell g row col (getCell s row col)) s := by
  obtain ⟨hws, hdig, hext, hone⟩ := hs
  have hd := hdig row hrow col hcol
  have hd0 : getCell s row col ≠ 0 := by omega
  refine ⟨(mem_nums _).mpr hd, ?_, hws, hdig, ?_, hone⟩
  · rw [isValidPlacement_iff g row col _ hrow hcol]
    intro r2 hr2 c2 hc2 hu heq
    have hne : getCell g r2 c2 ≠ 0 := by rw [heq]; exact hd0
    have hdiff : (r2, c2) ≠ (row, col) := by
      intro h
      simp only [Prod.mk.injEq] at h
      rw [h.1, h.2] at hne
      exact hne h0
    have h2 := hext r2 hr2 c2 hc2 hne
    exact noOther_of_eachOnce s hdig hone row col hrow hcol r2 hr2 c2 hc2 hdiff hu
      (by rw [h2, heq])
  · intro r hr c hc hne
    rw [getCell_setCell g row col r c _ hg hrow hcol] at hne ⊢
    split
    · rename_i h
      rw [h.1, h.2]
    · rename_i h
      simp only [h, if_false] at hne
      exact hext r hr c hc hne

/-- A grid that has a completion is never reported unsolvable. -/
theorem solveSudokuFuel_complete (s : Grid) (fuel : Nat) : ∀ (g : Grid), WF g →
    Completion g s → ∀ g1, solveSudokuFuel fuel g ≠ some (false, g1) := by
  induction fuel with
  | zero => intro g _ _ g1 h; simp [solveSudokuFuel] at h
  | succ fuel ih =>
    intro g hg hs g1 h
    rw [solveSudokuFuel_succ] at h
    cases hf : findEmptyCell g with
    | none => simp [hf] at h
    | some p =>
      obtain ⟨row, col⟩ := p
      simp only [hf] at h
      obtain ⟨hrow, hcol, h0, _⟩ := findEmptyCell_some g row col hf
      obtain ⟨hd, hp, hs2⟩ := completion_step g s row col hg hs hrow hcol h0
      have := (tryNums_false _ g row col hg hrow hcol h0
        (restoresAt_solveSudokuFuel fuel g row col hg) nums g1 h).2 _ hd hp
      exact ih _ (WF_setCell g row col _ hg) hs2 _ this

/-- The grid a successful call returns is a completion of a valid input over 0..9. -/
theorem completion_of_fills (g g1 : Grid) (hg : WF g) (hr : InRange g) (hv : Valid g)
    (h : Fills g g1) : Completion g g1 := by
  obtain ⟨h1, h2, h3, h4, h5⟩ := fills_spec g g1 h hg
  refine ⟨h1, ?_, h3, eachOnce_of_valid g1 h2 (h5 hr) (h4 hv)⟩
  intro r hr2 c hc
  have a := h5 hr r hr2 c hc
  have b := h2 r hr2 c hc
  omega

theorem solveSudoku_some (g : Grid) (hg : WF g) : ∃ res, solveSudoku g = some res :=
  solveSudokuFuel_total _ g hg (Nat.lt_succ_self _)

/-- An empty cell that accepts no candidate rules out every completion. -/
theorem no_completion_of_stuck (g : Grid) (row col : Nat) (hg : WF g)
    (hrow : row < SIZE) (hcol : col < SIZE) (h0 : getCell g row col = 0)
    (hall : ∀ d ∈ nums, isValidPlacement g row col d = false) : ¬ ∃ s, Completion g s := by
  rintro ⟨s, hs⟩
  obtain ⟨hd, hp, _⟩ := completion_step g s row col hg hs hrow hcol h0
  rw [hall _ hd] at hp
  exact absurd hp (by simp)

/-! ## The validator -/

/-- The check `isValidGrid` makes at a non-zero cell, with the cell cleared,
accepts exactly when the cell's value occurs in no other cell of its units. -/
theorem isValidPlacement_cleared (g : Grid) (r c : Nat) (hg : WF g)
    (hr : r < SIZE) (hc : c < SIZE) (hne : getCell g r c ≠ 0) :
    isValidPlacement (setCell g r c 0) r c (getCell g r c) = true ↔ NoOther g r c := by
  rw [isValidPlacement_iff _ r c _ hr hc]
  constructor
  · intro h r2 hr2 c2 hc2 hdiff hu
    have := h r2 hr2 c2 hc2 hu
    rwa [getCell_setCell_ne g r c r2 c2 0 (fun h => hdiff (by rw [h.1, h.2]))] at this
  · intro h r2 hr2 c2 hc2 hu
    rw [getCell_setCell g r c r2 c2 0 hg hr hc]
    split
    · exact fun h0 => hne h0.symm
    · rename_i hd
      exact h r2 hr2 c2 hc2 (fun h => hd (by simp only [Prod.mk.injEq] at h; exact h)) hu

theorem isValidGridLoop_spec (l : List (Nat × Nat)) (g : Grid) (hg : WF g)
    (hl : ∀ p ∈ l, p.1 < SIZE ∧ p.2 < SIZE) :
    (isValidGridLoop l g).2 = g ∧
      ((isValidGridLoop l g).1 = true ↔
        ∀ p ∈ l, getCell g p.1 p.2 ≠ 0 → NoOther g p.1 p.2) := by
  induction l with
  | nil => simp [isValidGridLoop]
  | cons p rest ih =>
    obtain ⟨row, col⟩ := p
    obtain ⟨hrow, hcol⟩ := hl (row, col) (List.mem_cons_self _ _)
    have ih2 := ih (fun q hq => hl q (List.mem_cons_of_mem _ hq))
    unfold isValidGridLoop
    by_cases hne : getCell g row col ≠ 0
    · have hkey := isValidPlacement_cleared g row col hg hrow hcol hne
      rw [if_pos hne]
      simp only [setCell_restore g row col 0 hg hrow hcol]
      by_cases hp : isValidPlacement (setCell g row col 0) row col (getCell g row col) = true
      · simp only [hp, Bool.not_true, Bool.false_eq_true, if_false]
        refine ⟨ih2.1, ?_⟩
        rw [ih2.2]
        constructor
        · intro h q hq
          rcases List.mem_cons.mp hq with rfl | hq2
          · exact fun _ => hkey.mp hp
          · exact h q hq2
        · exact fun h q hq => h q (List.mem_cons_of_mem _ hq)
      · have hp2 : isValidPlacement (setCell g row col 0) row col (getCell g row col) = false := by
          simpa using hp
        simp only [hp2, Bool.not_false, if_true, Bool.false_eq_true, false_iff, true_and]
        exact fun h => hp (hkey.mpr (h (row, col) (List.mem_cons_self _ _) hne))
    · rw [if_neg hne]
      refine ⟨ih2.1, ?_⟩
      rw [ih2.2]
      constructor
      · intro h q hq
        rcases List.mem_cons.mp hq with rfl | hq2
        · exact fun h0 => absurd h0 hne
        · exact h q hq2
      · exact fun h q hq => h q (List.mem_cons_of_mem _ hq)

theorem isValidGrid_grid (g : Grid) (hg : WF g) : (isValidGrid g).2 = g :=
  (isValidGridLoop_spec cells g hg (fun p hp => (mem_cells p.1 p.2).mp hp)).1

theorem isValidGrid_result (g : Grid) (hg : WF g) : (isValidGrid g).1 = true ↔ Valid g := by
  unfold isValidGrid
  rw [(isValidGridLoop_spec cells g hg (fun p hp => (mem_cells p.1 p.2).mp hp)).2]
  constructor
  · intro h r hr c hc hne
    exact h (r, c) ((mem_cells r c).mpr ⟨hr, hc⟩) hne
  · intro h p hp hne
    obtain ⟨hr, hc⟩ := (mem_cells p.1 p.2).mp hp
    exact h p.1 hr p.2 hc hne

/-! ## Frames and empty cells -/

/-- The loop gives the same result with any recursive call that agrees with
`solve` on the grids `g` with a candidate placed at `(row, col)`. -/
theorem tryNums_congr (solve solve2 : Grid → Option (Bool × Grid)) (g : Grid) (row col : Nat)
    (hg : WF g) (hrow : row < SIZE) (hcol : col < SIZE) (h0 : getCell g row col = 0)
    (hres : RestoresAt solve g row col) (ds : List Int)
    (hagree : ∀ d ∈ ds, solve2 (setCell g row col d) = solve (setCell g row col d)) :
    tryNums solve2 row col ds g = tryNums solve row col ds g := by
  induction ds with
  | nil => rfl
  | cons d rest ih =>
    have ih2 := ih (fun e he => hagree e (List.mem_cons_of_mem _ he))
    have hd := hagree d (List.mem_cons_self _ _)
    unfold tryNums
    by_cases hv : isValidPlacement g row col d = true
    · simp only [hv, if_true, hd]
      cases hs : solve (setCell g row col d) with
      | none => rfl
      | some res =>
        obtain ⟨b, g1⟩ := res
        cases b with
        | true => rfl
        | false =>
          have hg1 := hres d g1 hs
          subst hg1
          simp only [setCell_clear g row col d hg hrow hcol h0]
          exact ih2
    · simp only [hv]
      exact ih2

/-- Frames beyond one per empty cell, plus one, change nothing. -/
theorem solveSudokuFuel_enough (fuel : Nat) : ∀ (g : Grid), WF g → countEmpty g < fuel →
    solveSudokuFuel fuel g = solveSudoku g := by
  induction fuel with
  | zero => intro g _ h; omega
  | succ fuel ih =>
    intro g hg hcount
    unfold solveSudoku
    rw [solveSudokuFuel_succ, solveSudokuFuel_succ]
    cases hf : findEmptyCell g with
    | none => rfl
    | some p =>
      obtain ⟨row, col⟩ := p
      simp only
      obtain ⟨hrow, hcol, h0, _⟩ := findEmptyCell_some g row col hf
      apply tryNums_congr _ _ g row col hg hrow hcol h0
        (restoresAt_solveSudokuFuel _ g row col hg)
      intro d hd
      have hc := countEmpty_setCell g row col d hg hrow hcol h0 (nums_ne_zero d hd)
      have hw := WF_setCell g row col d hg
      rw [ih _ hw (by omega)]
      have : countEmpty g = countEmpty (setCell g row col d) + 1 := hc.symm
      rw [this]
      rfl

theorem solveChecked_eq (fuel : Nat) : ∀ (g : Grid), WF g →
    solveChecked fuel g = solveSudokuFuel fuel g := by
  induction fuel with
  | zero => intro g _; rfl
  | succ fuel ih =>
    intro g hg
    rw [solveSudokuFuel_succ]
    unfold solveChecked
    cases hf : findEmptyCell g with
    | none => rfl
    | some p =>
      obtain ⟨row, col⟩ := p
      simp only
      obtain ⟨hrow, hcol, h0, _⟩ := findEmptyCell_some g row col hf
      apply tryNums_congr _ _ g row col hg hrow hcol h0
        (restoresAt_solveSudokuFuel _ g row col hg)
      intro d hd
      have hc := countEmpty_setCell g row col d hg hrow hcol h0 (nums_ne_zero d hd)
      simp only [hc, if_true]
      exact ih _ (WF_setCell g row col d hg)

/-! ## Forced cells: a uniqueness check for completions -/

/-- Every completion of a grid completes the grid with its forced cells filled. -/
theorem forcedFill_completion (s : Grid) (l : List (Nat × Nat)) : ∀ (g g2 : Grid), WF g →
    forcedFill l g = some g2 → Completion g s → WF g2 ∧ Completion g2 s := by
  induction l with
  | nil =>
    intro g g2 hg h hs
    simp only [forcedFill, Option.some.injEq] at h
    subst h
    exact ⟨hg, hs⟩
  | cons p rest ih =>
    obtain ⟨row, col⟩ := p
    intro g g2 hg h hs
    unfold forcedFill at h
    split at h
    · rename_i hcond
      obtain ⟨hrow, hcol, h0⟩ := hcond
      obtain ⟨hd, hp, hs2⟩ := completion_step g s row col hg hs hrow hcol h0
      split at h
      · rename_i d hfilter
        have hmem : getCell s row col ∈ nums.filter (fun d => isValidPlacement g row col d) :=
          List.mem_filter.mpr ⟨hd, hp⟩
        rw [hfilter, List.mem_singleton] at hmem
        rw [← hmem] at h
        exact ih _ g2 (WF_setCell g row col _ hg) h hs2
      · simp at h
    · simp at h

/-- A completion of a full grid is that grid. -/
theorem completion_of_full (g s : Grid) (hg : WF g) (hf : Full g) (hs : Completion g s) :
    s = g :=
  grid_ext s g hs.1 hg (fun r hr c hc => hs.2.2.1 r hr c hc (hf r hr c hc))

/-! ## Facts about the concrete grids -/

theorem lastRowEmpty_wf : WF lastRowEmpty := by decide

theorem lastRowEmpty_inRange : InRange lastRowEmpty := by decide

theorem lastRowEmpty_completion : Completion lastRowEmpty sampleSolution := by decide!

theorem lastRowEmpty_valid : Valid lastRowEmpty :=
  valid_of_completion lastRowEmpty sampleSolution lastRowEmpty_completion

theorem lastRowEmpty_solve : solveSudoku lastRowEmpty = some (true, sampleSolution) := by
  decide!

theorem stuckGrid_wf : WF stuckGrid := by decide

theorem stuckGrid_inRange : InRange stuckGrid := by decide

theorem stuckGrid_valid : Valid stuckGrid :=
  (isValidGrid_result stuckGrid stuckGrid_wf).mp (by decide!)

theorem stuckGrid_unsat : ¬ ∃ s, Completion stuckGrid s :=
  no_completion_of_stuck stuckGrid 0 6 stuckGrid_wf (by decide) (by decide) (by decide)
    (by decide)

theorem stuckGrid_solve : solveSudoku stuckGrid = some (false, stuckGrid) := by decide

theorem twoFives_wf : WF twoFives := by decide

theorem twoFives_unsat : ¬ ∃ s, Completion twoFives s := by
  rintro ⟨s, hs⟩
  exact valid_of_completion twoFives s hs 0 (by decide) 0 (by decide) (by decide)
    0 (by decide) 1 (by decide) (by decide) (by decide) (by decide)

theorem samplePuzzle_wf : WF samplePuzzle := by decide

theorem samplePuzzle_completion : Completion samplePuzzle sampleSolution := by decide!

theorem sampleOrder_forced : forcedFill sampleOrder samplePuzzle = some sampleSolution := by
  decide!

/-- The sample puzzle has one completion only. -/
theorem samplePuzzle_unique (s : Grid) (hs : Completion samplePuzzle s) : s = sampleSolution := by
  obtain ⟨hw, hc⟩ := forcedFill_completion s sampleOrder samplePuzzle sampleSolution
    samplePuzzle_wf sampleOrder_forced hs
  exact completion_of_full sampleSolution s hw (by decide) hc

/-! ## The claims -/

/-- C1 (soundness of `solveSudoku`): on a 9x9 grid with entries in 0..9 that
is valid, a call that returns true leaves a grid with no 0 cell in which every
row, every column and every 3x3 subgrid contains each digit 1..9 exactly once. -/
theorem solveSudoku_sound (g g1 : Grid) (hg : WF g) (hr : InRange g) (hv : Valid g)
    (h : solveSudoku g = some (true, g1)) : Solved g1 := by
  have hc := completion_of_fills g g1 hg hr hv (solveSudokuFuel_true _ g hg g1 h)
  exact ⟨(fills_spec g g1 (solveSudokuFuel_true _ g hg g1 h) hg).2.1, hc.2.2.2⟩

theorem solveSudoku_sound_witness :
    WF lastRowEmpty ∧ InRange lastRowEmpty ∧ Valid lastRowEmpty ∧
      solveSudoku lastRowEmpty = some (true, sampleSolution) ∧ Solved sampleSolution :=
  ⟨lastRowEmpty_wf, lastRowEmpty_inRange, lastRowEmpty_valid, lastRowEmpty_solve,
    solveSudoku_sound lastRowEmpty sampleSolution lastRowEmpty_wf lastRowEmpty_inRange
      lastRowEmpty_valid lastRowEmpty_solve⟩

/-- C2 (completeness of `solveSudoku`): on a 9x9 grid that has a completion
the call returns true; a false result is returned only when no completion
exists.  (A grid with a completion is valid and has its entries in 0..9.) -/
theorem solveSudoku_complete (g : Grid) (hg : WF g) :
    ((∃ s, Completion g s) → ∃ g1, solveSudoku g = some (true, g1)) ∧
      (∀ g1, solveSudoku g = some (false, g1) → ¬ ∃ s, Completion g s) := by
  have key : ∀ g1, solveSudoku g = some (false, g1) → ¬ ∃ s, Completion g s := by
    rintro g1 h ⟨s, hs⟩
    exact solveSudokuFuel_complete s _ g hg hs g1 h
  refine ⟨?_, key⟩
  intro hex
  obtain ⟨⟨b, g1⟩, hres⟩ := solveSudoku_some g hg
  cases b with
  | true => exact ⟨g1, hres⟩
  | false => exact absurd hex (key g1 hres)

theorem solveSudoku_complete_witness :
    WF lastRowEmpty ∧ Completion lastRowEmpty sampleSolution ∧
      ∃ g1, solveSudoku lastRowEmpty = some (true, g1) :=
  ⟨lastRowEmpty_wf, lastRowEmpty_completion,
    (solveSudoku_complete lastRowEmpty lastRowEmpty_wf).1
      ⟨sampleSolution, lastRowEmpty_completion⟩⟩

/-- C3 as stated fails: `twoFives` is 9x9 with entries in 0..9, has two 5s
in row 0 and therefore no completion, and `solveSudoku` returns true on it. -/
theorem solveSudoku_unsat_counterexample :
    WF twoFives ∧ InRange twoFives ∧ (¬ ∃ s, Completion twoFives s) ∧
      solveSudoku twoFives = some (true, twoFivesFilled) :=
  ⟨twoFives_wf, by decide, twoFives_unsat, by decide⟩

/-- C3 (amended): on a valid 9x9 grid with entries in 0..9 that has no
completion, `solveSudoku` returns false (and leaves the grid as it was). -/
theorem solveSudoku_unsat (g : Grid) (hg : WF g) (hr : InRange g) (hv : Valid g)
    (hun : ¬ ∃ s, Completion g s) : solveSudoku g = some (false, g) := by
  obtain ⟨⟨b, g1⟩, hres⟩ := solveSudoku_some g hg
  cases b with
  | true =>
    exact absurd ⟨g1, completion_of_fills g g1 hg hr hv (solveSudokuFuel_true _ g hg g1 hres)⟩
      hun
  | false =>
    rw [hres, solveSudokuFuel_false _ g hg g1 hres]

theorem solveSudoku_unsat_witness :
    WF stuckGrid ∧ InRange stuckGrid ∧ Valid stuckGrid ∧ (¬ ∃ s, Completion stuckGrid s) ∧
      solveSudoku stuckGrid = some (false, stuckGrid) :=
  ⟨stuckGrid_wf, stuckGrid_inRange, stuckGrid_valid, stuckGrid_unsat,
    solveSudoku_unsat stuckGrid stuckGrid_wf stuckGrid_inRange stuckGrid_valid stuckGrid_unsat⟩

/-- C4 (termination of `solveSudoku`): on every 9x9 grid the call returns,
with one stack frame per empty cell plus one; more frames change nothing;
cutting off every recursive call on a grid that does not have exactly one
empty cell fewer than its caller's grid changes nothing either, so every
recursive call is on such a grid; the number of empty cells is at most 81; and
placing a candidate in the first empty cell leaves exactly one empty cell fewer. -/
theorem solveSudoku_terminates (g : Grid) (hg : WF g) :
    (∃ res, solveSudokuFuel (countEmpty g + 1) g = some res) ∧
      (∀ fuel, countEmpty g < fuel → solveSudokuFuel fuel g = solveSudoku g) ∧
      solveChecked (countEmpty g + 1) g = solveSudoku g ∧
      countEmpty g ≤ 81 ∧
      (∀ row col d, findEmptyCell g = some (row, col) → d ∈ nums →
        countEmpty (setCell g row col d) + 1 = countEmpty g) := by
  refine ⟨solveSudoku_some g hg, fun fuel h => solveSudokuFuel_enough fuel g hg h,
    solveChecked_eq _ g hg, countEmpty_le g, ?_⟩
  intro row col d hf hd
  obtain ⟨hrow, hcol, h0, _⟩ := findEmptyCell_some g row col hf
  exact countEmpty_setCell g row col d hg hrow hcol h0 (nums_ne_zero d hd)

theorem solveSudoku_terminates_witness :
    WF stuckGrid ∧ ((∃ res, solveSudokuFuel (countEmpty stuckGrid + 1) stuckGrid = some res) ∧
      (∀ fuel, countEmpty stuckGrid < fuel →
        solveSudokuFuel fuel stuckGrid = solveSudoku stuckGrid) ∧
      solveChecked (countEmpty stuckGrid + 1) stuckGrid = solveSudoku stuckGrid ∧
      countEmpty stuckGrid ≤ 81 ∧
      (∀ row col d, findEmptyCell stuckGrid = some (row, col) → d ∈ nums →
        countEmpty (setCell stuckGrid row col d) + 1 = countEmpty stuckGrid)) :=
  ⟨stuckGrid_wf, solveSudoku_terminates stuckGrid stuckGrid_wf⟩

theorem occupied_iff (g : Grid) (row col : Nat) (d : Int)
    (hrow : row < SIZE) (hcol : col < SIZE) :
    Occupied g row col d ↔
      ∃ r2 < SIZE, ∃ c2 < SIZE, sameUnit row col r2 c2 ∧ getCell g r2 c2 = d := by
  unfold Occupied sameUnit
  constructor
  · rintro (⟨c, hc, h⟩ | ⟨r, hr, h⟩ | ⟨r, hr, c, hc, h1, h2, h⟩)
    · exact ⟨row, hrow, c, hc, Or.inl rfl, h⟩
    · exact ⟨r, hr, col, hcol, Or.inr (Or.inl rfl), h⟩
    · exact ⟨r, hr, c, hc, Or.inr (Or.inr ⟨h1.symm, h2.symm⟩), h⟩
  · rintro ⟨r2, hr2, c2, hc2, (rfl | rfl | ⟨h1, h2⟩), h⟩
    · exact Or.inl ⟨c2, hc2, h⟩
    · exact Or.inr (Or.inl ⟨r2, hr2, h⟩)
    · exact Or.inr (Or.inr ⟨r2, hr2, c2, hc2, h1.symm, h2.symm, h⟩)

/-- C5 (`isValidPlacement`): for row, col in 0..8 the call returns false if
`d` occupies some cell of row `row`, some cell of column `col` or some cell of
the subgrid containing `(row, col)`, and returns true otherwise.  (This holds
for every cell content and every `d`, not only for an empty cell and a digit.) -/
theorem isValidPlacement_spec (g : Grid) (row col : Nat) (d : Int)
    (hrow : row < SIZE) (hcol : col < SIZE) :
    (Occupied g row col d → isValidPlacement g row col d = false) ∧
      (¬ Occupied g row col d → isValidPlacement g row col d = true) := by
  have hiff := isValidPlacement_iff g row col d hrow hcol
  rw [occupied_iff g row col d hrow hcol]
  constructor
  · rintro ⟨r2, hr2, c2, hc2, hu, h⟩
    cases hp : isValidPlacement g row col d with
    | false => rfl
    | true => exact absurd h (hiff.mp hp r2 hr2 c2 hc2 hu)
  · intro hno
    apply hiff.mpr
    intro r2 hr2 c2 hc2 hu h
    exact hno ⟨r2, hr2, c2, hc2, hu, h⟩

theorem isValidPlacement_spec_witness :
    (8 < SIZE ∧ 0 < SIZE) ∧
      ((Occupied lastRowEmpty 8 0 3 → isValidPlacement lastRowEmpty 8 0 3 = false) ∧
        (¬ Occupied lastRowEmpty 8 0 3 → isValidPlacement lastRowEmpty 8 0 3 = true)) :=
  ⟨by decide, isValidPlacement_spec lastRowEmpty 8 0 3 (by decide) (by decide)⟩

/-- C6 (`isValidGrid`): on a 9x9 grid the call returns true if and only if the
value of every non-zero cell appears in no other cell of the same row, column
or subgrid; it returns false whenever two distinct cells sharing a row, a
column or a subgrid hold the same non-zero value. -/
theorem isValidGrid_spec (g : Grid) (hg : WF g) :
    ((isValidGrid g).1 = true ↔ Valid g) ∧
      (∀ r < SIZE, ∀ c < SIZE, ∀ r2 < SIZE, ∀ c2 < SIZE, (r2, c2) ≠ (r, c) →
        sameUnit r c r2 c2 → getCell g r c ≠ 0 → getCell g r2 c2 = getCell g r c →
        (isValidGrid g).1 = false) := by
  refine ⟨isValidGrid_result g hg, ?_⟩
  intro r hr c hc r2 hr2 c2 hc2 hdiff hu hne heq
  cases hres : (isValidGrid g).1 with
  | false => rfl
  | true =>
    exact absurd heq ((isValidGrid_result g hg).mp hres r hr c hc hne r2 hr2 c2 hc2 hdiff hu)

theorem isValidGrid_spec_witness :
    WF twoFives ∧ (isValidGrid twoFives).1 = false :=
  ⟨twoFives_wf, (isValidGrid_spec twoFives twoFives_wf).2 0 (by decide) 0 (by decide)
    0 (by decide) 1 (by decide) (by decide) (by decide) (by decide) (by decide)⟩

/-- C7 (`isValidGrid` leaves the grid alone): on a 9x9 grid, whatever the
result, the grid after the call equals the grid before the call. -/
theorem isValidGrid_unchanged (g : Grid) (hg : WF g) : (isValidGrid g).2 = g :=
  isValidGrid_grid g hg

theorem isValidGrid_unchanged_witness :
    WF twoFives ∧ (isValidGrid twoFives).2 = twoFives :=
  ⟨twoFives_wf, isValidGrid_unchanged twoFives twoFives_wf⟩

/-- C8 (a failed `solveSudoku` clears what it placed): on a 9x9 grid, if the
call returns false then the grid after the call equals the grid before it. -/
theorem solveSudoku_false_unchanged (g g1 : Grid) (hg : WF g)
    (h : solveSudoku g = some (false, g1)) : g1 = g :=
  solveSudokuFuel_false _ g hg g1 h

theorem solveSudoku_false_unchanged_witness :
    WF stuckGrid ∧ solveSudoku stuckGrid = some (false, stuckGrid) ∧ stuckGrid = stuckGrid :=
  ⟨stuckGrid_wf, stuckGrid_solve,
    solveSudoku_false_unchanged stuckGrid stuckGrid stuckGrid_wf stuckGrid_solve⟩

/-- C9 (`findEmptyCell`): a result true comes with a cell `(row, col)` of the
grid that holds 0 and every cell before it in row-major order is non-zero; the
result is false if and only if the grid has no 0 cell. -/
theorem findEmptyCell_spec (g : Grid) :
    (∀ row col, findEmptyCell g = some (row, col) →
      row < SIZE ∧ col < SIZE ∧ getCell g row col = 0 ∧
        ∀ r2 < SIZE, ∀ c2 < SIZE, before r2 c2 row col → getCell g r2 c2 ≠ 0) ∧
      (findEmptyCell g = none ↔ Full g) :=
  ⟨fun row col h => findEmptyCell_some g row col h, findEmptyCell_none g⟩

theorem findEmptyCell_spec_witness :
    findEmptyCell lastRowEmpty = some (8, 0) ∧ getCell lastRowEmpty 8 0 = 0 :=
  ⟨by decide, ((findEmptyCell_spec lastRowEmpty).1 8 0 (by decide)).2.2.1⟩

/-- C10 (the built-in sample): on the table of `loadSamplePuzzle`,
`solveSudoku` returns true and leaves the known solution, a completion of the
sample whose first row is 5 3 4 6 7 8 9 1 2. -/
theorem solveSudoku_samplePuzzle :
    solveSudoku samplePuzzle = some (true, sampleSolution) ∧
      Completion samplePuzzle sampleSolution ∧
      rowVals sampleSolution 0 = [5, 3, 4, 6, 7, 8, 9, 1, 2] := by
  refine ⟨?_, samplePuzzle_completion, by decide⟩
  obtain ⟨⟨b, g1⟩, hres⟩ := solveSudoku_some samplePuzzle samplePuzzle_wf
  cases b with
  | false =>
    exact absurd samplePuzzle_completion
      (solveSudokuFuel_complete sampleSolution _ samplePuzzle samplePuzzle_wf · g1 hres)
  | true =>
    have hc := completion_of_fills samplePuzzle g1 samplePuzzle_wf (by decide)
      (valid_of_completion samplePuzzle sampleSolution samplePuzzle_completion)
      (solveSudokuFuel_true _ samplePuzzle samplePuzzle_wf g1 hres)
    rw [hres, samplePuzzle_unique g1 hc]

/-! ## Full grids and the cells a successful call fills -/

theorem solveSudokuFuel_full (fuel : Nat) (g : Grid) (hf : Full g) :
    solveSudokuFuel (fuel + 1) g = some (true, g) := by
  rw [solveSudokuFuel_succ, (findEmptyCell_none g).mpr hf]

theorem solveSudoku_full (g : Grid) (hf : Full g) : solveSudoku g = some (true, g) :=
  solveSudokuFuel_full _ g hf

theorem solved_of_completion (g s : Grid) (hs : Completion g s) : Solved s := by
  refine ⟨?_, hs.2.2.2⟩
  intro r hr c hc
  have := hs.2.1 r hr c hc
  omega

/-- A cell that was empty holds one of the candidates 1..9 once the grid is filled. -/
theorem fills_digits (g g1 : Grid) (h : Fills g g1) : WF g →
    ∀ r < SIZE, ∀ c < SIZE, getCell g r c = 0 → getCell g1 r c ∈ nums := by
  induction h with
  | done g hf =>
    intro _ r hr c hc h0
    exact absurd h0 ((findEmptyCell_none g).mp hf r hr c hc)
  | place g g1 row col d hf hd hp hrest ih =>
    intro hg r hr c hc h0
    obtain ⟨hrow, hcol, _, _⟩ := findEmptyCell_some g row col hf
    have hw := WF_setCell g row col d hg
    by_cases hcell : r = row ∧ c = col
    · obtain ⟨rfl, rfl⟩ := hcell
      have hset := getCell_setCell_eq g r c d hg hrow hcol
      have := (fills_spec _ g1 hrest hw).2.2.1 r hr c hc (by rw [hset]; exact nums_ne_zero d hd)
      rw [this, hset]
      exact hd
    · exact ih hw r hr c hc (by rw [getCell_setCell_ne g row col r c d hcell]; exact h0)

/-- Two cells of one unit that hold the same value in the filled grid were
both non-zero before the filling. -/
theorem fills_no_new_conflict (g g1 : Grid) (h : Fills g g1) : WF g →
    ∀ r < SIZE, ∀ c < SIZE, ∀ r2 < SIZE, ∀ c2 < SIZE, (r2, c2) ≠ (r, c) →
      sameUnit r c r2 c2 → getCell g1 r2 c2 = getCell g1 r c →
      getCell g r c ≠ 0 ∧ getCell g r2 c2 ≠ 0 := by
  induction h with
  | done g hf =>
    intro _ r hr c hc r2 hr2 c2 hc2 _ _ _
    have hfull := (findEmptyCell_none g).mp hf
    exact ⟨hfull r hr c hc, hfull r2 hr2 c2 hc2⟩
  | place g g1 row col d hf hd hp hrest ih =>
    intro hg r hr c hc r2 hr2 c2 hc2 hdiff hu heq
    obtain ⟨hrow, hcol, h0, _⟩ := findEmptyCell_some g row col hf
    have hw := WF_setCell g row col d hg
    have hext := (fills_spec _ g1 hrest hw).2.2.1
    have hacc := (isValidPlacement_iff g row col d hrow hcol).mp hp
    have hd0 := nums_ne_zero d hd
    have hnew : getCell g1 row col = d := by
      have hset := getCell_setCell_eq g row col d hg hrow hcol
      rw [hext row hrow col hcol (by rw [hset]; exact hd0), hset]
    have hold : ∀ a < SIZE, ∀ b < SIZE, ¬ (a = row ∧ b = col) → getCell g a b ≠ 0 →
        getCell g1 a b = getCell g a b := by
      intro a ha b hb hne hnz
      have hset := getCell_setCell_ne g row col a b d hne
      rw [hext a ha b hb (by rw [hset]; exact hnz), hset]
    obtain ⟨h1, h2⟩ := ih hw r hr c hc r2 hr2 c2 hc2 hdiff hu heq
    have hdiff2 : ¬ (r2 = r ∧ c2 = c) := fun h => hdiff (by rw [h.1, h.2])
    by_cases hc1 : r = row ∧ c = col
    · obtain ⟨rfl, rfl⟩ := hc1
      rw [getCell_setCell_ne g r c r2 c2 d hdiff2] at h2
      have := hold r2 hr2 c2 hc2 hdiff2 h2
      rw [heq, hnew] at this
      exact absurd this.symm (hacc r2 hr2 c2 hc2 hu)
    · rw [getCell_setCell_ne g row col r c d hc1] at h1
      by_cases hc2' : r2 = row ∧ c2 = col
      · obtain ⟨rfl, rfl⟩ := hc2'
        have := hold r hr c hc hc1 h1
        rw [← heq, hnew] at this
        exact absurd this.symm (hacc r hr c hc (sameUnit_symm _ _ _ _ hu))
      · rw [getCell_setCell_ne g row col r2 c2 d hc2'] at h2
        exact ⟨h1, h2⟩

/-! ## The valid-state invariant along the search -/

/-- Clearing a cell keeps the grid valid. -/
theorem valid_clear (g : Grid) (row col : Nat) (hg : WF g) (hv : Valid g)
    (hrow : row < SIZE) (hcol : col < SIZE) : Valid (setCell g row col 0) := by
  intro r hr c hc hne r2 hr2 c2 hc2 hdiff hu
  rw [getCell_setCell g row col r c 0 hg hrow hcol] at hne ⊢
  rw [getCell_setCell g row col r2 c2 0 hg hrow hcol]
  by_cases h1 : r = row ∧ c = col
  · simp [h1] at hne
  · simp only [h1, if_false] at hne ⊢
    by_cases h2 : r2 = row ∧ c2 = col
    · simp only [h2, and_self, if_true]
      exact fun h => hne h.symm
    · simp only [h2, if_false]
      exact hv r hr c hc hne r2 hr2 c2 hc2 hdiff hu

/-- The loop gives the same result with any recursive call that agrees with
`solve` on the grids `g` with an accepted candidate placed at `(row, col)`. -/
theorem tryNums_congr_accepted (solve solve2 : Grid → Option (Bool × Grid)) (g : Grid)
    (row col : Nat) (hg : WF g) (hrow : row < SIZE) (hcol : col < SIZE)
    (h0 : getCell g row col = 0) (hres : RestoresAt solve g row col) (ds : List Int)
    (hagree : ∀ d ∈ ds, isValidPlacement g row col d = true →
      solve2 (setCell g row col d) = solve (setCell g row col d)) :
    tryNums solve2 row col ds g = tryNums solve row col ds g := by
  induction ds with
  | nil => rfl
  | cons d rest ih =>
    have ih2 := ih (fun e he => hagree e (List.mem_cons_of_mem _ he))
    unfold tryNums
    by_cases hv : isValidPlacement g row col d = true
    · have hd := hagree d (List.mem_cons_self _ _) hv
      simp only [hv, if_true, hd]
      cases hs : solve (setCell g row col d) with
      | none => rfl
      | some res =>
        obtain ⟨b, g1⟩ := res
        cases b with
        | true => rfl
        | false =>
          have hg1 := hres d g1 hs
          subst hg1
          simp only [setCell_clear g row col d hg hrow hcol h0]
          exact ih2
    · simp only [hv]
      exact ih2

/-- Started on a valid grid, the search calls itself on valid grids only. -/
theorem solveOn_valid (fuel : Nat) : ∀ (g : Grid), WF g → Valid g →
    solveOn (fun x => decide (Valid x)) fuel g = solveSudokuFuel fuel g := by
  induction fuel with
  | zero => intro g _ _; rfl
  | succ fuel ih =>
    intro g hg hv
    rw [solveSudokuFuel_succ]
    unfold solveOn
    simp only [hv, decide_True, if_true]
    cases hf : findEmptyCell g with
    | none => rfl
    | some p =>
      obtain ⟨row, col⟩ := p
      simp only
      obtain ⟨hrow, hcol, h0, _⟩ := findEmptyCell_some g row col hf
      apply tryNums_congr_accepted _ _ g row col hg hrow hcol h0
        (restoresAt_solveSudokuFuel _ g row col hg)
      intro d _ hp
      exact ih _ (WF_setCell g row col d hg) (valid_setCell g row col d hg hv hrow hcol hp)

/-! ## The first solution in row-major order -/

theorem nums_sorted : nums.Pairwise (fun a b => a < b) := by decide

/-- Among the completions of the grid, the one a successful call returns is
least at the first cell where two of them differ. -/
theorem solveSudokuFuel_least (s : Grid) (fuel : Nat) : ∀ (g : Grid), WF g → ∀ g1,
    solveSudokuFuel fuel g = some (true, g1) → Completion g s → s = g1 ∨ LexLt g1 s := by
  induction fuel with
  | zero => intro g _ g1 h; simp [solveSudokuFuel] at h
  | succ fuel ih =>
    intro g hg g1 h hs
    have hfills := solveSudokuFuel_true _ g hg g1 h
    rw [solveSudokuFuel_succ] at h
    cases hf : findEmptyCell g with
    | none =>
      simp only [hf, Option.some.injEq, Prod.mk.injEq, true_and] at h
      subst h
      exact Or.inl (completion_of_full g s hg ((findEmptyCell_none g).mp hf) hs)
    | some p =>
      obtain ⟨row, col⟩ := p
      simp only [hf] at h
      obtain ⟨hrow, hcol, h0, hbefore⟩ := findEmptyCell_some g row col hf
      obtain ⟨pre, d, post, hsplit, hv, hsol, hpre⟩ := tryNums_true _ g row col hg hrow hcol h0
        (restoresAt_solveSudokuFuel fuel g row col hg) nums g1 h
      obtain ⟨hmem, hacc, hs2⟩ := completion_step g s row col hg hs hrow hcol h0
      have hw := WF_setCell g row col d hg
      rw [hsplit] at hmem
      rcases List.mem_append.mp hmem with hin | hin
      · exact absurd (hpre _ hin hacc)
          (solveSudokuFuel_complete s fuel _ (WF_setCell g row col _ hg) hs2 _)
      · rcases List.mem_cons.mp hin with heq | hpost
        · rw [heq] at hs2
          exact ih _ hw g1 hsol hs2
        · right
          have hlt : d < getCell s row col := by
            have hsorted := nums_sorted
            rw [hsplit, List.pairwise_append] at hsorted
            exact (List.pairwise_cons.mp hsorted.2.1).1 _ hpost
          have hd : d ∈ nums := by rw [hsplit]; simp
          have hext := (fills_spec _ g1 (solveSudokuFuel_true _ _ hw g1 hsol) hw).2.2.1
          have hnew : getCell g1 row col = d := by
            have hset := getCell_setCell_eq g row col d hg hrow hcol
            rw [hext row hrow col hcol (by rw [hset]; exact nums_ne_zero d hd), hset]
          refine ⟨row, hrow, col, hcol, by rw [hnew]; exact hlt, ?_⟩
          intro r2 hr2 c2 hc2 hb
          have hnz := hbefore r2 hr2 c2 hc2 hb
          rw [(fills_spec g g1 hfills hg).2.2.1 r2 hr2 c2 hc2 hnz, hs.2.2.1 r2 hr2 c2 hc2 hnz]

/-! ## Checked access never fails on a 9x9 grid -/

theorem getCellAt_isSome (g : Grid) (row col : Nat) (hg : WF g) :
    (getCellAt g row col).isSome = true ↔ row < SIZE ∧ col < SIZE := by
  obtain ⟨hlen, hrows⟩ := hg
  unfold getCellAt
  by_cases hr : row < g.length
  · have hrow : (g[row]).length = SIZE := hrows _ (List.getElem_mem _)
    simp only [List.get?_eq_getElem?, List.getElem?_eq_getElem hr]
    by_cases hc : col < (g[row]).length
    · simp only [List.getElem?_eq_getElem hc, Option.isSome_some, true_iff]
      omega
    · simp only [List.getElem?_eq_none (Nat.le_of_not_lt hc), Option.isSome_none]
      constructor
      · intro h; exact absurd h (by simp)
      · intro h; omega
  · simp only [List.get?_eq_getElem?, List.getElem?_eq_none (Nat.le_of_not_lt hr),
      Option.isSome_none]
    constructor
    · intro h; exact absurd h (by simp)
    · intro h; omega

theorem getCellAt_eq (g : Grid) (row col : Nat) (hg : WF g)
    (hrow : row < SIZE) (hcol : col < SIZE) :
    getCellAt g row col = some (getCell g row col) := by
  obtain ⟨hlen, hrows⟩ := hg
  have hr : row < g.length := by omega
  have hlenr : (g[row]).length = SIZE := hrows _ (List.getElem_mem _)
  have hc : col < (g[row]).length := by omega
  unfold getCellAt getCell
  simp [List.getElem?_eq_getElem hr, List.getElem?_eq_getElem hc]

theorem setCellAt_isSome (g : Grid) (row col : Nat) (v : Int) (hg : WF g) :
    (setCellAt g row col v).isSome = true ↔ row < SIZE ∧ col < SIZE := by
  obtain ⟨hlen, hrows⟩ := hg
  unfold setCellAt
  by_cases hr : row < g.length
  · have hrow : (g[row]).length = SIZE := hrows _ (List.getElem_mem _)
    simp only [List.get?_eq_getElem?, List.getElem?_eq_getElem hr]
    by_cases hc : col < (g[row]).length
    · simp only [hc, if_true, Option.isSome_some, true_iff]
      omega
    · simp only [hc, if_false, Option.isSome_none]
      constructor
      · intro h; exact absurd h (by simp)
      · intro h; omega
  · simp only [List.get?_eq_getElem?, List.getElem?_eq_none (Nat.le_of_not_lt hr),
      Option.isSome_none]
    constructor
    · intro h; exact absurd h (by simp)
    · intro h; omega

theorem setCellAt_eq (g : Grid) (row col : Nat) (v : Int) (hg : WF g)
    (hrow : row < SIZE) (hcol : col < SIZE) :
    setCellAt g row col v = some (setCell g row col v) := by
  obtain ⟨hlen, hrows⟩ := hg
  have hr : row < g.length := by omega
  have hlenr : (g[row]).length = SIZE := hrows _ (List.getElem_mem _)
  have hc : col < (g[row]).length := by omega
  unfold setCellAt setCell
  simp [List.getElem?_eq_getElem hr, hc]

theorem anyAt_eq (g : Grid) (num : Int) (hg : WF g) (l : List (Nat × Nat))
    (hl : ∀ p ∈ l, p.1 < SIZE ∧ p.2 < SIZE) :
    anyAt g num l = some (l.any (fun p => getCell g p.1 p.2 == num)) := by
  induction l with
  | nil => rfl
  | cons p rest ih =>
    obtain ⟨h1, h2⟩ := hl p (List.mem_cons_self _ _)
    have ih2 := ih (fun q hq => hl q (List.mem_cons_of_mem _ hq))
    unfold anyAt
    rw [getCellAt_eq g p.1 p.2 hg h1 h2]
    by_cases hv : (getCell g p.1 p.2 == num) = true
    · simp [hv]
    · simp only [hv, if_false, ih2, List.any_cons, Bool.false_or]
      simp [hv]

theorem any_map_eq {α β : Type} (f : α → β) (p : β → Bool) (l : List α) :
    (l.map f).any p = l.any (fun a => p (f a)) := by
  induction l with
  | nil => rfl
  | cons a rest ih => simp only [List.map_cons, List.any_cons, ih]

theorem isValidPlacementAt_eq (g : Grid) (row col : Nat) (num : Int) (hg : WF g)
    (hrow : row < SIZE) (hcol : col < SIZE) :
    isValidPlacementAt g row col num = some (isValidPlacement g row col num) := by
  have h1 := anyAt_eq g num hg ((List.range SIZE).map (fun c => (row, c))) (by
    intro p hp
    obtain ⟨c, hc, rfl⟩ := List.mem_map.mp hp
    exact ⟨hrow, List.mem_range.mp hc⟩)
  have h2 := anyAt_eq g num hg ((List.range SIZE).map (fun r => (r, col))) (by
    intro p hp
    obtain ⟨r, hr, rfl⟩ := List.mem_map.mp hp
    exact ⟨List.mem_range.mp hr, hcol⟩)
  have h3 := anyAt_eq g num hg ((List.range SUBGRID_SIZE).flatMap (fun r =>
      (List.range SUBGRID_SIZE).map (fun c =>
        (r + (row - row % SUBGRID_SIZE), c + (col - col % SUBGRID_SIZE))))) (by
    intro p hp
    obtain ⟨r, hr, hp2⟩ := List.mem_flatMap.mp hp
    obtain ⟨c, hc, rfl⟩ := List.mem_map.mp hp2
    exact ⟨((box_index row _ hrow).mp ⟨r, List.mem_range.mp hr, rfl⟩).1,
      ((box_index col _ hcol).mp ⟨c, List.mem_range.mp hc, rfl⟩).1⟩)
  have e1 : ((List.range SIZE).map (fun c => (row, c))).any
      (fun p => getCell g p.1 p.2 == num) =
      (List.range SIZE).any (fun c => getCell g row c == num) := by
    rw [any_map_eq]
  have e2 : ((List.range SIZE).map (fun r => (r, col))).any
      (fun p => getCell g p.1 p.2 == num) =
      (List.range SIZE).any (fun r => getCell g r col == num) := by
    rw [any_map_eq]
  have e3 : ((List.range SUBGRID_SIZE).flatMap (fun r =>
      (List.range SUBGRID_SIZE).map (fun c =>
        (r + (row - row % SUBGRID_SIZE), c + (col - col % SUBGRID_SIZE))))).any
      (fun p => getCell g p.1 p.2 == num) =
      (List.range SUBGRID_SIZE).any (fun r => (List.range SUBGRID_SIZE).any (fun c =>
        getCell g (r + (row - row % SUBGRID_SIZE)) (c + (col - col % SUBGRID_SIZE)) == num)) := by
    simp only [List.any_flatMap, any_map_eq]
  rw [e1] at h1
  rw [e2] at h2
  rw [e3] at h3
  unfold isValidPlacementAt isValidPlacement
  simp only [h1, h2, h3]
  generalize (List.range SIZE).any (fun c => getCell g row c == num) = b1
  generalize (List.range SIZE).any (fun r => getCell g r col == num) = b2
  generalize (List.range SUBGRID_SIZE).any (fun r => (List.range SUBGRID_SIZE).any (fun c =>
    getCell g (r + (row - row % SUBGRID_SIZE)) (c + (col - col % SUBGRID_SIZE)) == num)) = b3
  cases b1 <;> cases b2 <;> cases b3 <;> rfl

theorem findAt_eq (g : Grid) (hg : WF g) (l : List (Nat × Nat))
    (hl : ∀ p ∈ l, p.1 < SIZE ∧ p.2 < SIZE) :
    findAt g l = some (l.find? (fun p => getCell g p.1 p.2 == 0)) := by
  induction l with
  | nil => rfl
  | cons p rest ih =>
    obtain ⟨h1, h2⟩ := hl p (List.mem_cons_self _ _)
    have ih2 := ih (fun q hq => hl q (List.mem_cons_of_mem _ hq))
    unfold findAt
    rw [getCellAt_eq g p.1 p.2 hg h1 h2]
    by_cases hv : (getCell g p.1 p.2 == 0) = true
    · simp [hv]
    · simp only [hv, if_false, ih2, List.find?_cons]
      simp [hv]

theorem findEmptyCellAt_eq (g : Grid) (hg : WF g) :
    findEmptyCellAt g = some (findEmptyCell g) :=
  findAt_eq g hg cells (fun p hp => (mem_cells p.1 p.2).mp hp)

theorem tryNumsAt_eq (solve solve2 : Grid → Option (Bool × Grid)) (g : Grid) (row col : Nat)
    (hg : WF g) (hrow : row < SIZE) (hcol : col < SIZE) (h0 : getCell g row col = 0)
    (hres : RestoresAt solve g row col) (ds : List Int)
    (hagree : ∀ d ∈ ds, solve2 (setCell g row col d) = solve (setCell g row col d)) :
    tryNumsAt solve2 row col ds g = tryNums solve row col ds g := by
  induction ds with
  | nil => rfl
  | cons d rest ih =>
    have ih2 := ih (fun e he => hagree e (List.mem_cons_of_mem _ he))
    have hd := hagree d (List.mem_cons_self _ _)
    unfold tryNumsAt tryNums
    rw [isValidPlacementAt_eq g row col d hg hrow hcol]
    by_cases hv : isValidPlacement g row col d = true
    · simp only [hv, if_true, setCellAt_eq g row col d hg hrow hcol, hd]
      cases hs : solve (setCell g row col d) with
      | none => rfl
      | some res =>
        obtain ⟨b, g1⟩ := res
        cases b with
        | true => rfl
        | false =>
          have hg1 := hres d g1 hs
          subst hg1
          simp only [setCellAt_eq _ row col 0 (WF_setCell g row col d hg) hrow hcol,
            setCell_clear g row col d hg hrow hcol h0]
          exact ih2
    · have hv2 : isValidPlacement g row col d = false := by simpa using hv
      simp only [hv2, Bool.false_eq_true, if_false]
      exact ih2

theorem solveSudokuFuelAt_eq (fuel : Nat) : ∀ (g : Grid), WF g →
    solveSudokuFuelAt fuel g = solveSudokuFuel fuel g := by
  induction fuel with
  | zero => intro g _; rfl
  | succ fuel ih =>
    intro g hg
    rw [solveSudokuFuel_succ]
    unfold solveSudokuFuelAt
    rw [findEmptyCellAt_eq g hg]
    cases hf : findEmptyCell g with
    | none => rfl
    | some p =>
      obtain ⟨row, col⟩ := p
      simp only
      obtain ⟨hrow, hcol, h0, _⟩ := findEmptyCell_some g row col hf
      exact tryNumsAt_eq _ _ g row col hg hrow hcol h0
        (restoresAt_solveSudokuFuel _ g row col hg) nums
        (fun d _ => ih _ (WF_setCell g row col d hg))

theorem isValidGridLoopAt_eq (l : List (Nat × Nat)) : ∀ (g : Grid), WF g →
    (∀ p ∈ l, p.1 < SIZE ∧ p.2 < SIZE) →
    isValidGridLoopAt l g = some (isValidGridLoop l g) := by
  induction l with
  | nil => intro g _ _; rfl
  | cons p rest ih =>
    obtain ⟨row, col⟩ := p
    intro g hg hl
    obtain ⟨hrow, hcol⟩ := hl (row, col) (List.mem_cons_self _ _)
    have hl2 : ∀ q ∈ rest, q.1 < SIZE ∧ q.2 < SIZE :=
      fun q hq => hl q (List.mem_cons_of_mem _ hq)
    have hw1 := WF_setCell g row col 0 hg
    unfold isValidGridLoopAt isValidGridLoop
    rw [getCellAt_eq g row col hg hrow hcol]
    by_cases hne : getCell g row col ≠ 0
    · simp only [if_pos hne, setCellAt_eq g row col 0 hg hrow hcol,
        isValidPlacementAt_eq _ row col _ hw1 hrow hcol,
        setCellAt_eq _ row col _ hw1 hrow hcol]
      cases hp : isValidPlacement (setCell g row col 0) row col (getCell g row col) with
      | false => simp
      | true =>
        simp only [Bool.not_true, Bool.false_eq_true, if_false]
        exact ih _ (WF_setCell _ row col _ hw1) hl2
    · simp only [if_neg hne]
      exact ih g hg hl2

theorem isValidGridAt_eq (g : Grid) (hg : WF g) : isValidGridAt g = some (isValidGrid g) :=
  isValidGridLoopAt_eq cells g hg (fun p hp => (mem_cells p.1 p.2).mp hp)

theorem box_origin (row : Nat) (hrow : row < SIZE) :
    row - row % SUBGRID_SIZE ∈ [0, 3, 6] := by
  simp only [SIZE, SUBGRID_SIZE] at *
  simp only [List.mem_cons, List.mem_singleton, List.mem_nil_iff, or_false]
  omega

/-! ## The scanned cell itself -/

theorem isValidPlacement_self (g : Grid) (row col : Nat) (d : Int)
    (hrow : row < SIZE) (hcol : col < SIZE) (h : getCell g row col = d) :
    isValidPlacement g row col d = false := by
  cases hp : isValidPlacement g row col d with
  | false => rfl
  | true =>
    exact absurd h ((isValidPlacement_iff g row col d hrow hcol).mp hp row hrow col hcol
      (Or.inl rfl))

theorem isValidPlacement_setCell (g : Grid) (row col : Nat) (d v : Int) (hg : WF g)
    (hrow : row < SIZE) (hcol : col < SIZE) (hold : getCell g row col ≠ d) (hv : v ≠ d) :
    isValidPlacement (setCell g row col v) row col d = isValidPlacement g row col d := by
  rw [Bool.eq_iff_iff, isValidPlacement_iff _ row col d hrow hcol,
    isValidPlacement_iff g row col d hrow hcol]
  constructor
  · intro h r2 hr2 c2 hc2 hu
    by_cases hcell : r2 = row ∧ c2 = col
    · rw [hcell.1, hcell.2]
      exact hold
    · have := h r2 hr2 c2 hc2 hu
      rwa [getCell_setCell_ne g row col r2 c2 v hcell] at this
  · intro h r2 hr2 c2 hc2 hu
    rw [getCell_setCell g row col r2 c2 v hg hrow hcol]
    split
    · exact hv
    · exact h r2 hr2 c2 hc2 hu

/-! ## More facts about the concrete grids -/

theorem sampleSolution_wf : WF sampleSolution := by decide

theorem sampleSolution_solved : Solved sampleSolution :=
  solved_of_completion samplePuzzle sampleSolution samplePuzzle_completion

theorem twoFives_solve : solveSudoku twoFives = some (true, twoFivesFilled) := by decide

theorem twoFivesFilled_full : Full twoFivesFilled := by decide

theorem twoFivesFilled_invalid : ¬ Valid twoFivesFilled := by
  intro hv
  exact hv 0 (by decide) 0 (by decide) (by decide) 0 (by decide) 1 (by decide) (by decide)
    (by decide) (by decide)

theorem emptyGrid_wf : WF emptyGrid := by decide

/-! ## The claims, continued -/

/-- C11 (an already solved grid is a fixed point): on a 9x9 grid with no 0
cell and each digit once in every row, column and subgrid, `solveSudoku`
returns true in its first frame, without a recursive call, and the grid after
the call is the grid before it; and on the grid a successful call returned,
a second call returns true and changes nothing. -/
theorem solveSudoku_fixed_point :
    (∀ g, WF g → Solved g →
      solveSudokuFuel 1 g = some (true, g) ∧ solveSudoku g = some (true, g)) ∧
    (∀ g g1, WF g → solveSudoku g = some (true, g1) →
      solveSudoku g1 = some (true, g1)) := by
  constructor
  · intro g _ hs
    exact ⟨solveSudokuFuel_full 0 g hs.1, solveSudoku_full g hs.1⟩
  · intro g g1 hg h
    exact solveSudoku_full g1 (fills_spec g g1 (solveSudokuFuel_true _ g hg g1 h) hg).2.1

theorem solveSudoku_fixed_point_witness :
    (WF sampleSolution ∧ Solved sampleSolution ∧
      solveSudoku sampleSolution = some (true, sampleSolution)) ∧
    (WF lastRowEmpty ∧ solveSudoku lastRowEmpty = some (true, sampleSolution) ∧
      solveSudoku sampleSolution = some (true, sampleSolution)) :=
  ⟨⟨sampleSolution_wf, sampleSolution_solved,
      (solveSudoku_fixed_point.1 sampleSolution sampleSolution_wf sampleSolution_solved).2⟩,
    ⟨lastRowEmpty_wf, lastRowEmpty_solve,
      solveSudoku_fixed_point.2 lastRowEmpty sampleSolution lastRowEmpty_wf lastRowEmpty_solve⟩⟩

/-- C12 (the constructor): the grid it builds is 9x9, all 81 cells are 0, and
`isValidGrid` returns true on it (and leaves it as it is). -/
theorem emptyGrid_spec :
    WF emptyGrid ∧ (∀ r < SIZE, ∀ c < SIZE, getCell emptyGrid r c = 0) ∧
      countEmpty emptyGrid = 81 ∧ isValidGrid emptyGrid = (true, emptyGrid) := by
  refine ⟨emptyGrid_wf, by decide, by decide, by decide⟩

/-- C13 (the valid-state invariant along the search): on a valid 9x9 grid,
placing in an empty cell a digit 1..9 that `isValidPlacement` accepts gives a
valid grid, clearing a cell gives a valid grid, and cutting off every call of
the search on a grid that is not valid changes nothing, so that every grid on
which `solveSudoku` is invoked is valid. -/
theorem valid_invariant (g : Grid) (hg : WF g) (hv : Valid g) :
    (∀ row < SIZE, ∀ col < SIZE, ∀ d : Int, getCell g row col = 0 → 1 ≤ d → d ≤ 9 →
      isValidPlacement g row col d = true → Valid (setCell g row col d)) ∧
    (∀ row < SIZE, ∀ col < SIZE, Valid (setCell g row col 0)) ∧
    (∀ fuel, solveOn (fun x => decide (Valid x)) fuel g = solveSudokuFuel fuel g) ∧
    solveOn (fun x => decide (Valid x)) (countEmpty g + 1) g = solveSudoku g :=
  ⟨fun row hrow col hcol d _ _ _ hp => valid_setCell g row col d hg hv hrow hcol hp,
    fun row hrow col hcol => valid_clear g row col hg hv hrow hcol,
    fun fuel => solveOn_valid fuel g hg hv, solveOn_valid _ g hg hv⟩

theorem valid_invariant_witness :
    WF lastRowEmpty ∧ Valid lastRowEmpty ∧
      solveOn (fun x => decide (Valid x)) (countEmpty lastRowEmpty + 1) lastRowEmpty =
        solveSudoku lastRowEmpty :=
  ⟨lastRowEmpty_wf, lastRowEmpty_valid,
    (valid_invariant lastRowEmpty lastRowEmpty_wf lastRowEmpty_valid).2.2.2⟩

/-- C14 as stated fails: on the all-zero grid `isValidPlacement(0, 0, 5)`
returns true, and on the same grid with cell (0, 0) replaced by 5 it returns
false. -/
theorem isValidPlacement_own_cell_counterexample :
    WF emptyGrid ∧ isValidPlacement emptyGrid 0 0 5 = true ∧
      isValidPlacement (setCell emptyGrid 0 0 5) 0 0 5 = false :=
  ⟨emptyGrid_wf, by decide, by decide⟩

/-- C14 (amended): the scans read cell `(row, col)` itself.  On a 9x9 grid,
for row, col in 0..8, the result of `isValidPlacement(row, col, d)` is the
same on the grid and on the grid with cell `(row, col)` replaced by `v`
provided neither the cell's content nor `v` is `d`; when the cell holds `d`
the result is false. -/
theorem isValidPlacement_own_cell (g : Grid) (row col : Nat) (d v : Int) (hg : WF g)
    (hrow : row < SIZE) (hcol : col < SIZE) :
    (getCell g row col ≠ d → v ≠ d →
      isValidPlacement (setCell g row col v) row col d = isValidPlacement g row col d) ∧
    (getCell g row col = d → isValidPlacement g row col d = false) :=
  ⟨fun hold hv => isValidPlacement_setCell g row col d v hg hrow hcol hold hv,
    fun h => isValidPlacement_self g row col d hrow hcol h⟩

theorem isValidPlacement_own_cell_witness :
    (WF lastRowEmpty ∧ 8 < SIZE ∧ 0 < SIZE ∧ getCell lastRowEmpty 8 0 ≠ 3 ∧ (1 : Int) ≠ 3) ∧
      isValidPlacement (setCell lastRowEmpty 8 0 1) 8 0 3 = isValidPlacement lastRowEmpty 8 0 3 :=
  ⟨⟨lastRowEmpty_wf, by decide, by decide, by decide, by decide⟩,
    (isValidPlacement_own_cell lastRowEmpty 8 0 3 1 lastRowEmpty_wf (by decide) (by decide)).1
      (by decide) (by decide)⟩

/-- C15 (no out-of-range access): on a 9x9 grid a checked read or write fails
exactly when an index is outside 0..8; for row, col in 0..8 the members
`isValidPlacement`, `findEmptyCell`, `isValidGrid` and `solveSudoku` run with
checked reads and writes never fail and give the results of the unchecked
members; the subgrid origin is in {0, 3, 6} in both coordinates; and the cell
a successful `findEmptyCell` returns, the only cell `solveSudoku` writes, is
in range. -/
theorem no_out_of_range (g : Grid) (row col : Nat) (hg : WF g)
    (hrow : row < SIZE) (hcol : col < SIZE) :
    (∀ r c, (getCellAt g r c).isSome = true ↔ r < SIZE ∧ c < SIZE) ∧
    (∀ r c v, (setCellAt g r c v).isSome = true ↔ r < SIZE ∧ c < SIZE) ∧
    (∀ num, isValidPlacementAt g row col num = some (isValidPlacement g row col num)) ∧
    findEmptyCellAt g = some (findEmptyCell g) ∧
    isValidGridAt g = some (isValidGrid g) ∧
    solveSudokuAt g = solveSudoku g ∧
    (∃ res, solveSudokuAt g = some res) ∧
    (row - row % SUBGRID_SIZE ∈ [0, 3, 6] ∧ col - col % SUBGRID_SIZE ∈ [0, 3, 6]) ∧
    (∀ r c, findEmptyCell g = some (r, c) →
      r < SIZE ∧ c < SIZE ∧ ∀ v, setCellAt g r c v = some (setCell g r c v)) := by
  have hsolve : solveSudokuAt g = solveSudoku g := solveSudokuFuelAt_eq _ g hg
  refine ⟨fun r c => getCellAt_isSome g r c hg, fun r c v => setCellAt_isSome g r c v hg,
    fun num => isValidPlacementAt_eq g row col num hg hrow hcol, findEmptyCellAt_eq g hg,
    isValidGridAt_eq g hg, hsolve, ?_, ⟨box_origin row hrow, box_origin col hcol⟩, ?_⟩
  · rw [hsolve]
    exact solveSudoku_some g hg
  · intro r c hf
    obtain ⟨hr, hc, _, _⟩ := findEmptyCell_some g r c hf
    exact ⟨hr, hc, fun v => setCellAt_eq g r c v hg hr hc⟩

theorem no_out_of_range_witness :
    (WF lastRowEmpty ∧ 8 < SIZE ∧ 0 < SIZE) ∧
      solveSudokuAt lastRowEmpty = some (true, sampleSolution) :=
  ⟨⟨lastRowEmpty_wf, by decide, by decide⟩,
    ((no_out_of_range lastRowEmpty 8 0 lastRowEmpty_wf (by decide) (by decide)).2.2.2.2.2.1).trans
      lastRowEmpty_solve⟩

/-- C16 (`solveSudoku` never changes a given): on a 9x9 grid, whatever the
result, every cell that is non-zero before the call holds the same value
after it; on success every cell that was 0 before the call holds a digit in
1..9. -/
theorem solveSudoku_givens (g g1 : Grid) (b : Bool) (hg : WF g)
    (h : solveSudoku g = some (b, g1)) :
    Extends g g1 ∧
      (b = true → ∀ r < SIZE, ∀ c < SIZE, getCell g r c = 0 →
        1 ≤ getCell g1 r c ∧ getCell g1 r c ≤ 9) := by
  cases b with
  | false =>
    rw [solveSudokuFuel_false _ g hg g1 h]
    exact ⟨fun _ _ _ _ _ => rfl, fun hb => absurd hb (by simp)⟩
  | true =>
    have hfills := solveSudokuFuel_true _ g hg g1 h
    refine ⟨(fills_spec g g1 hfills hg).2.2.1, ?_⟩
    intro _ r hr c hc h0
    exact (mem_nums _).mp (fills_digits g g1 hfills hg r hr c hc h0)

theorem solveSudoku_givens_witness :
    (WF lastRowEmpty ∧ solveSudoku lastRowEmpty = some (true, sampleSolution)) ∧
      Extends lastRowEmpty sampleSolution :=
  ⟨⟨lastRowEmpty_wf, lastRowEmpty_solve⟩,
    (solveSudoku_givens lastRowEmpty sampleSolution true lastRowEmpty_wf lastRowEmpty_solve).1⟩

/-- C17 (which solution is returned): on a valid 9x9 grid with entries in
0..9 on which `solveSudoku` returns true, the resulting grid is a completion
of the input, and every other completion of the input is larger at the first
cell, in row-major order, where the two differ. -/
theorem solveSudoku_least (g g1 : Grid) (hg : WF g) (hr : InRange g) (hv : Valid g)
    (h : solveSudoku g = some (true, g1)) :
    Completion g g1 ∧ ∀ s, Completion g s → s = g1 ∨ LexLt g1 s :=
  ⟨completion_of_fills g g1 hg hr hv (solveSudokuFuel_true _ g hg g1 h),
    fun s hs => solveSudokuFuel_least s _ g hg g1 h hs⟩

theorem solveSudoku_least_witness :
    (WF lastRowEmpty ∧ InRange lastRowEmpty ∧ Valid lastRowEmpty ∧
      solveSudoku lastRowEmpty = some (true, sampleSolution)) ∧
      Completion lastRowEmpty sampleSolution :=
  ⟨⟨lastRowEmpty_wf, lastRowEmpty_inRange, lastRowEmpty_valid, lastRowEmpty_solve⟩,
    (solveSudoku_least lastRowEmpty sampleSolution lastRowEmpty_wf lastRowEmpty_inRange
      lastRowEmpty_valid lastRowEmpty_solve).1⟩

/-- C18 (`solveSudoku` does not validate the givens and introduces no
conflict): on a 9x9 grid, valid or not, if the call returns true then two
distinct cells of the resulting grid that hold the same value and share a row,
a column or a subgrid were both non-zero, with those values, in the input;
a grid with no 0 cell is accepted with result true and left unchanged, as is
the full grid `twoFivesFilled`, which is not valid. -/
theorem solveSudoku_no_new_conflict :
    (∀ g g1, WF g → solveSudoku g = some (true, g1) →
      ∀ r < SIZE, ∀ c < SIZE, ∀ r2 < SIZE, ∀ c2 < SIZE, (r2, c2) ≠ (r, c) →
        sameUnit r c r2 c2 → getCell g1 r2 c2 = getCell g1 r c →
        (getCell g r c ≠ 0 ∧ getCell g r2 c2 ≠ 0) ∧
          (getCell g r c = getCell g1 r c ∧ getCell g r2 c2 = getCell g1 r2 c2)) ∧
    (∀ g, WF g → Full g → solveSudoku g = some (true, g)) ∧
    (Full twoFivesFilled ∧ ¬ Valid twoFivesFilled ∧
      solveSudoku twoFivesFilled = some (true, twoFivesFilled)) := by
  refine ⟨?_, fun g _ hf => solveSudoku_full g hf,
    twoFivesFilled_full, twoFivesFilled_invalid, solveSudoku_full _ twoFivesFilled_full⟩
  intro g g1 hg h r hr c hc r2 hr2 c2 hc2 hdiff hu heq
  have hfills := solveSudokuFuel_true _ g hg g1 h
  have hnz := fills_no_new_conflict g g1 hfills hg r hr c hc r2 hr2 c2 hc2 hdiff hu heq
  have hext := (fills_spec g g1 hfills hg).2.2.1
  exact ⟨hnz, (hext r hr c hc hnz.1).symm, (hext r2 hr2 c2 hc2 hnz.2).symm⟩

theorem solveSudoku_no_new_conflict_witness :
    (WF twoFives ∧ solveSudoku twoFives = some (true, twoFivesFilled) ∧
      getCell twoFivesFilled 0 1 = getCell twoFivesFilled 0 0) ∧
      (getCell twoFives 0 0 ≠ 0 ∧ getCell twoFives 0 1 ≠ 0) :=
  ⟨⟨twoFives_wf, twoFives_solve, by decide⟩,
    (solveSudoku_no_new_conflict.1 twoFives twoFivesFilled twoFives_wf twoFives_solve
      0 (by decide) 0 (by decide) 0 (by decide) 1 (by decide) (by decide) (by decide)
      (by decide)).1⟩

end SudokuSolver
